import Mathlib

/-!
Verification development for the heads-up Texas Hold'Em engine in
`src/client/src/components/game/poker/poker-game-engine.ts`.

The TypeScript engine is shallowly embedded below:
* pure hand-evaluation functions become Lean functions on `List Card`
  (JavaScript floating-point hand values become exact rationals `ℚ`;
  all values produced stay far from double rounding, so comparisons agree),
* the mutable `GameState` becomes a structure updated functionally,
* functions that `throw` return `Except Err _`,
* the cryptographically shuffled deck is passed in as an explicit
  `List Card` parameter (the shuffle is the engine's only randomness),
* array indexing out of range is rendered with `getD` defaults; every use
  proved about here is in range, matching the TypeScript behaviour.
-/

set_option maxRecDepth 100000

inductive Suit where
  | hearts | diamonds | clubs | spades
deriving DecidableEq, Repr, BEq

structure Card where
  suit : Suit
  rank : ℕ
deriving DecidableEq, Repr, BEq

/-- The ten hand categories, mirroring the `HandRank` union type. -/
inductive HandRank where
  | highCard | pair | twoPair | threeKind | straight
  | flush | fullHouse | fourKind | straightFlush | royalFlush
deriving DecidableEq, Repr, BEq

/-- Mirrors `HandEvaluation` (the `description` string is display-only and elided). -/
structure HandEvaluation where
  rank : HandRank
  cards : List Card
  value : ℕ
deriving DecidableEq, Repr, BEq

/-- Error taxonomy for the engine's `throw` sites. -/
inductive Err where
  | tooFewCards | illegalCheck | deckExhausted
deriving DecidableEq, Repr, BEq

/-- Descending insertion of a card by rank; models one step of
`sort((a, b) => b.rank - a.rank)`. -/
def insertDesc (c : Card) : List Card → List Card
  | [] => [c]
  | d :: ds => if d.rank ≤ c.rank then c :: d :: ds else d :: insertDesc c ds

/-- Sort a hand by rank, highest first, as the engine does before evaluating. -/
def sortDesc : List Card → List Card
  | [] => []
  | c :: cs => insertDesc c (sortDesc cs)

/-- Rank of `cards[0]` (0 for the empty hand), used where the source reads
the top card of a descending-sorted hand. -/
def headRank (cards : List Card) : ℕ := (cards.map Card.rank).headD 0

/-- Number of cards of rank `r`, mirroring one entry of `countRanks`. -/
def countRank (cards : List Card) (r : ℕ) : ℕ := (cards.map Card.rank).count r

/-- Distinct ranks in first-occurrence order: the key order of the
insertion-ordered `Map` built by `countRanks`. -/
def rankKeysAux (seen : List ℕ) : List Card → List ℕ
  | [] => []
  | c :: cs =>
    if c.rank ∈ seen then rankKeysAux seen cs
    else c.rank :: rankKeysAux (c.rank :: seen) cs

def rankKeys (cards : List Card) : List ℕ := rankKeysAux [] cards

/-- `getFourKindValue`: first rank occurring exactly four times, else 0. -/
def getFourKindValue (cards : List Card) : ℕ :=
  ((rankKeys cards).find? (fun r => countRank cards r == 4)).getD 0

/-- `getThreeKindValue`: first rank occurring exactly three times, else 0. -/
def getThreeKindValue (cards : List Card) : ℕ :=
  ((rankKeys cards).find? (fun r => countRank cards r == 3)).getD 0

/-- `getPairValue`: first rank occurring exactly twice, else 0. -/
def getPairValue (cards : List Card) : ℕ :=
  ((rankKeys cards).find? (fun r => countRank cards r == 2)).getD 0

/-- Descending insertion sort on naturals, for `pairs.sort((a, b) => b - a)`. -/
def insertDescNat (x : ℕ) : List ℕ → List ℕ
  | [] => [x]
  | y :: ys => if y ≤ x then x :: y :: ys else y :: insertDescNat x ys

def sortDescNat : List ℕ → List ℕ
  | [] => []
  | x :: xs => insertDescNat x (sortDescNat xs)

/-- `getTwoPairValues`: constructs the pair ranks in descending order. -/
def getTwoPairValues (cards : List Card) : List ℕ :=
  sortDescNat ((rankKeys cards).filter (fun r => countRank cards r == 2))

/-- `getHighCard`: `Math.max` over the card ranks (0 on the empty hand). -/
def getHighCard (cards : List Card) : ℕ := (cards.map Card.rank).foldr max 0

/-- `isFlush`: all cards share one suit (the set of suits has size one). -/
def isFlush (cards : List Card) : Bool :=
  match cards with
  | [] => false
  | c :: cs => cs.all (fun d => d.suit == c.suit)

/-- Consecutive descending run check, the loop body of `isStraight`. -/
def consecDesc : List ℕ → Bool
  | [] => true
  | [_] => true
  | a :: b :: t => (a == b + 1) && consecDesc (b :: t)

/-- `isStraight`: the explicit A-5-4-3-2 wheel test, else a consecutive
descending run over the sorted ranks. -/
def isStraight (cards : List Card) : Bool :=
  let rs := (sortDesc cards).map Card.rank
  if rs == [14, 5, 4, 3, 2] then true else consecDesc rs

def isFourOfAKind (cards : List Card) : Bool :=
  (rankKeys cards).any (fun r => countRank cards r == 4)

def isFullHouse (cards : List Card) : Bool :=
  ((rankKeys cards).any (fun r => countRank cards r == 3)) &&
  ((rankKeys cards).any (fun r => countRank cards r == 2))

def isThreeOfAKind (cards : List Card) : Bool :=
  (rankKeys cards).any (fun r => countRank cards r == 3)

def isTwoPair (cards : List Card) : Bool :=
  ((rankKeys cards).filter (fun r => countRank cards r == 2)).length == 2

def isPair (cards : List Card) : Bool :=
  (rankKeys cards).any (fun r => countRank cards r == 2)

def isStraightFlush (cards : List Card) : Bool := isFlush cards && isStraight cards

/-- `isRoyalFlush`: a straight flush whose `cards[0].rank` is 14 — note the
hand given to it is sorted descending. -/
def isRoyalFlush (cards : List Card) : Bool := isStraightFlush cards && headRank cards == 14

/-- Rank of an optional kicker found by `cards.find(...)`, 0 when absent. -/
def optRankN : Option Card → ℕ
  | some k => k.rank
  | none => 0

/-- The kickers of a hand: cards not of rank `r`, sorted descending. -/
def kickersExcluding (r : ℕ) (cards : List Card) : List Card :=
  sortDesc (cards.filter (fun c => c.rank != r))

/-- Rank of `ks[i]` (0 past the end). -/
def kickRankN (ks : List Card) (i : ℕ) : ℕ := (ks.map Card.rank).getD i 0

/-- `getHandValue`: the numeric comparison value with fractional decimal
place-values for kickers, exactly as written in the source (JavaScript's
doubles never round two distinct values of this grid together, so exact
rationals reproduce every comparison). -/
def getHandValue (cards : List Card) : ℚ :=
  if isRoyalFlush cards then 10 * 15 + (headRank cards : ℚ)
  else if isStraightFlush cards then 9 * 15 + (headRank cards : ℚ)
  else if isFourOfAKind cards then
    8 * 15 + (getFourKindValue cards : ℚ) +
      (optRankN (cards.find? (fun c => c.rank != getFourKindValue cards)) : ℚ) / 100
  else if isFullHouse cards then
    7 * 15 + (getThreeKindValue cards : ℚ) + (getPairValue cards : ℚ) / 100
  else if isFlush cards then 6 * 15 + (getHighCard cards : ℚ)
  else if isStraight cards then 5 * 15 + (headRank cards : ℚ)
  else if isThreeOfAKind cards then
    4 * 15 + (getThreeKindValue cards : ℚ) +
      (kickRankN (kickersExcluding (getThreeKindValue cards) cards) 0 : ℚ) / 100 +
      (kickRankN (kickersExcluding (getThreeKindValue cards) cards) 1 : ℚ) / 10000
  else if isTwoPair cards then
    3 * 15 + ((getTwoPairValues cards).getD 0 0 : ℚ) +
      ((getTwoPairValues cards).getD 1 0 : ℚ) / 100 +
      (optRankN (cards.find? (fun c =>
        (c.rank != (getTwoPairValues cards).getD 0 0) &&
        (c.rank != (getTwoPairValues cards).getD 1 0))) : ℚ) / 10000
  else if isPair cards then
    2 * 15 + (getPairValue cards : ℚ) +
      (kickRankN (kickersExcluding (getPairValue cards) cards) 0 : ℚ) / 100 +
      (kickRankN (kickersExcluding (getPairValue cards) cards) 1 : ℚ) / 10000 +
      (kickRankN (kickersExcluding (getPairValue cards) cards) 2 : ℚ) / 1000000
  else 1 * 15 + (getHighCard cards : ℚ)

/-- Integer twin of `getHandValue`, scaled by 10⁶ so that the kernel can
evaluate it (the rationals above do not reduce definitionally). The scaling
`x ↦ 10⁶·x` is a strictly monotone bijection onto the value grid, and
`getHandValueZ_eq` below proves the exact correspondence. -/
def getHandValueZ (cards : List Card) : ℤ :=
  if isRoyalFlush cards then 1000000 * (10 * 15 + (headRank cards : ℤ))
  else if isStraightFlush cards then 1000000 * (9 * 15 + (headRank cards : ℤ))
  else if isFourOfAKind cards then
    1000000 * (8 * 15 + (getFourKindValue cards : ℤ)) +
      10000 * (optRankN (cards.find? (fun c => c.rank != getFourKindValue cards)) : ℤ)
  else if isFullHouse cards then
    1000000 * (7 * 15 + (getThreeKindValue cards : ℤ)) + 10000 * (getPairValue cards : ℤ)
  else if isFlush cards then 1000000 * (6 * 15 + (getHighCard cards : ℤ))
  else if isStraight cards then 1000000 * (5 * 15 + (headRank cards : ℤ))
  else if isThreeOfAKind cards then
    1000000 * (4 * 15 + (getThreeKindValue cards : ℤ)) +
      10000 * (kickRankN (kickersExcluding (getThreeKindValue cards) cards) 0 : ℤ) +
      100 * (kickRankN (kickersExcluding (getThreeKindValue cards) cards) 1 : ℤ)
  else if isTwoPair cards then
    1000000 * (3 * 15 + ((getTwoPairValues cards).getD 0 0 : ℤ)) +
      10000 * ((getTwoPairValues cards).getD 1 0 : ℤ) +
      100 * (optRankN (cards.find? (fun c =>
        (c.rank != (getTwoPairValues cards).getD 0 0) &&
        (c.rank != (getTwoPairValues cards).getD 1 0))) : ℤ)
  else if isPair cards then
    1000000 * (2 * 15 + (getPairValue cards : ℤ)) +
      10000 * (kickRankN (kickersExcluding (getPairValue cards) cards) 0 : ℤ) +
      100 * (kickRankN (kickersExcluding (getPairValue cards) cards) 1 : ℤ) +
      (kickRankN (kickersExcluding (getPairValue cards) cards) 2 : ℤ)
  else 1000000 * (1 * 15 + (getHighCard cards : ℤ))

/-- Branch elimination: every hand falls into exactly one detector branch, and
in that branch `handRankOf`, `getHandValue` and `getHandValueZ` take the
corresponding leaf values. All later reasoning cases on this lemma. -/
def handRankOf (cards : List Card) : HandRank :=
  if isRoyalFlush cards then .royalFlush
  else if isStraightFlush cards then .straightFlush
  else if isFourOfAKind cards then .fourKind
  else if isFullHouse cards then .fullHouse
  else if isFlush cards then .flush
  else if isStraight cards then .straight
  else if isThreeOfAKind cards then .threeKind
  else if isTwoPair cards then .twoPair
  else if isPair cards then .pair
  else .highCard

/-- The `value` field `evaluateHand` stores for each category (1–10). -/
def rankValue : HandRank → ℕ
  | .highCard => 1
  | .pair => 2
  | .twoPair => 3
  | .threeKind => 4
  | .straight => 5
  | .flush => 6
  | .fullHouse => 7
  | .fourKind => 8
  | .straightFlush => 9
  | .royalFlush => 10

/-- Category of a hand via the same detector cascade `evaluateHand` uses. -/
def getCombinations (l : List Card) (k : ℕ) : List (List Card) :=
  match k, l with
  | 0, _ => [[]]
  | _ + 1, [] => []
  | k + 1, x :: xs =>
    ((getCombinations xs k).map (fun c => x :: c)) ++ getCombinations xs (k + 1)

/-- One step of `getBestFiveCardHand`'s best-so-far scan. -/
def bestStep (acc : ℚ × List Card) (combo : List Card) : ℚ × List Card :=
  if acc.1 < getHandValue (sortDesc combo) then (getHandValue (sortDesc combo), sortDesc combo)
  else acc

/-- Scaled twin of `bestStep`; makes the same selection (`bestStepZ_eq`). -/
def bestStepZ (acc : ℤ × List Card) (combo : List Card) : ℤ × List Card :=
  if acc.1 < getHandValueZ (sortDesc combo) then (getHandValueZ (sortDesc combo), sortDesc combo)
  else acc

/-- `getBestFiveCardHand`: the five cards kept are sorted descending; with
6 or 7 cards every 5-card combination is scanned and the strict maximum by
`getHandValue` kept (initial best value −1). -/
def getBestFiveCardHand (cards : List Card) : List Card :=
  if cards.length = 5 then sortDesc cards
  else ((getCombinations cards 5).foldl bestStep ((-1 : ℚ), ([] : List Card))).2

/-- Kernel-evaluable twin of `getBestFiveCardHand` (same result, proved in
`getBestFiveCardHandZ_eq`). -/
def getBestFiveCardHandZ (cards : List Card) : List Card :=
  if cards.length = 5 then sortDesc cards
  else ((getCombinations cards 5).foldl bestStepZ ((-1000000 : ℤ), ([] : List Card))).2

/-- `evaluateHand`: throws below 5 cards, otherwise classifies the best five
and stores the bare category ordinal as `value`. -/
def evaluateHand (cards : List Card) : Except Err HandEvaluation :=
  if cards.length < 5 then .error .tooFewCards
  else
    .ok { rank := handRankOf (getBestFiveCardHand cards)
          cards := getBestFiveCardHand cards
          value := rankValue (handRankOf (getBestFiveCardHand cards)) }

/-- Kernel-evaluable twin of `evaluateHand` (same result, `evaluateHandZ_eq`);
the game-state embedding below calls this twin so that concrete hands can be
computed, which is sound because the two functions agree everywhere. -/
def evaluateHandZ (cards : List Card) : Except Err HandEvaluation :=
  if cards.length < 5 then .error .tooFewCards
  else
    .ok { rank := handRankOf (getBestFiveCardHandZ cards)
          cards := getBestFiveCardHandZ cards
          value := rankValue (handRankOf (getBestFiveCardHandZ cards)) }

/-- Projection helpers for stating concrete evaluations. -/
def evalValueOf (cards : List Card) : Option ℕ :=
  match evaluateHand cards with
  | .ok e => some e.value
  | .error _ => none

def evalRankOf (cards : List Card) : Option HandRank :=
  match evaluateHand cards with
  | .ok e => some e.rank
  | .error _ => none

/-- `calculatePreflopHandStrength`: the AI's preflop heuristic over the two
hole cards, with the JavaScript decimal literals as exact rationals. -/
def calculatePreflopHandStrength (holeCards : List Card) : ℚ :=
  let ranks := holeCards.map Card.rank
  let suits := holeCards.map Card.suit
  let r0 := ranks.getD 0 0
  let r1 := ranks.getD 1 0
  if r0 = r1 then
    1 / 2 + (((r0 : ℚ) - 2) / 12) * (2 / 5)
  else
    let suited := suits.getD 0 Suit.hearts == suits.getD 1 Suit.hearts
    let hasAce := ranks.contains 14
    let hasKing := ranks.contains 13
    let hasQueen := ranks.contains 12
    let hasJack := ranks.contains 11
    let diff := ((r0 : ℤ) - (r1 : ℤ)).natAbs
    let connected := diff == 1
    let closelyConnected := diff ≤ 3
    let strength : ℚ := 1 / 5
      + (if hasAce then 3 / 20 else 0)
      + (if hasKing then 1 / 10 else 0)
      + (if hasQueen then 1 / 20 else 0)
      + (if hasJack then 3 / 100 else 0)
      + (if suited then 1 / 10 else 0)
      + (if connected then 1 / 10 else if closelyConnected then 1 / 20 else 0)
      + (if hasAce && hasKing then 1 / 10 else 0)
      + (if suited && connected && (hasAce || hasKing) then 1 / 10 else 0)
    min (19 / 20) strength

/-- Concrete hands used to settle the evaluator claims. -/
def handAcesHighKickers : List Card :=
  [⟨.spades, 14⟩, ⟨.hearts, 14⟩, ⟨.diamonds, 13⟩, ⟨.clubs, 12⟩, ⟨.spades, 11⟩]

def handAcesLowKickers : List Card :=
  [⟨.diamonds, 14⟩, ⟨.clubs, 14⟩, ⟨.hearts, 9⟩, ⟨.spades, 8⟩, ⟨.diamonds, 7⟩]

def wheelSeven : List Card :=
  [⟨.spades, 14⟩, ⟨.hearts, 2⟩, ⟨.diamonds, 3⟩, ⟨.clubs, 4⟩, ⟨.spades, 5⟩,
   ⟨.hearts, 9⟩, ⟨.diamonds, 12⟩]

def wheelFive : List Card :=
  [⟨.spades, 14⟩, ⟨.hearts, 2⟩, ⟨.diamonds, 3⟩, ⟨.clubs, 4⟩, ⟨.spades, 5⟩]

def tenHighStraight : List Card :=
  [⟨.clubs, 10⟩, ⟨.diamonds, 9⟩, ⟨.hearts, 8⟩, ⟨.spades, 7⟩, ⟨.clubs, 6⟩]

def steelWheel : List Card :=
  [⟨.spades, 5⟩, ⟨.spades, 4⟩, ⟨.spades, 3⟩, ⟨.spades, 2⟩, ⟨.spades, 14⟩]

def royalHearts : List Card :=
  [⟨.hearts, 14⟩, ⟨.hearts, 13⟩, ⟨.hearts, 12⟩, ⟨.hearts, 11⟩, ⟨.hearts, 10⟩]

def SMALL_BLIND : ℤ := 5

def BIG_BLIND : ℤ := 10

def MIN_BET : ℤ := BIG_BLIND

def STARTING_CHIPS : ℤ := 1000

structure Player where
  name : String
  chips : ℤ
  bet : ℤ
  folded : Bool
  holeCards : List Card
  handEvaluation : Option HandEvaluation
deriving DecidableEq, Repr

inductive GameStage where
  | preflop | flop | turn | river | showdown
deriving DecidableEq, Repr

inductive PlayerAction where
  | fold | check | call | raise | allin
deriving DecidableEq, Repr

structure GameState where
  deck : List Card
  players : List Player
  communityCards : List Card
  stage : GameStage
  currentPlayerIndex : ℕ
  dealerIndex : ℕ
  mainPot : ℤ
  minBet : ℤ
  currentBet : ℤ
  winners : List ℕ
  roundOver : Bool
  log : List String
deriving DecidableEq, Repr

def defaultPlayer : Player :=
  { name := "", chips := 0, bet := 0, folded := false, holeCards := [], handEvaluation := none }

/-- `players[i]`; every indexing proved about is in range. -/
def getPlayer (s : GameState) (i : ℕ) : Player := s.players.getD i defaultPlayer

def setPlayer (s : GameState) (i : ℕ) (p : Player) : GameState :=
  { s with players := s.players.set i p }

/-- `postBlind`: caps the blind at the poster's chips, assigns the bet and
moves the chips into the pot. -/
def postBlind (i : ℕ) (amount : ℤ) (s : GameState) : GameState :=
  let p := getPlayer s i
  let actual := min amount p.chips
  { s with players := s.players.set i { p with bet := actual, chips := p.chips - actual },
           mainPot := s.mainPot + actual,
           log := s.log ++ [p.name ++ " posts " ++ toString actual] }

/-- `drawCard`: `deck.pop()` removes the last card; throws on an empty deck. -/
def drawCard (s : GameState) : Except Err (Card × GameState) :=
  match s.deck.getLast? with
  | none => .error .deckExhausted
  | some c => .ok (c, { s with deck := s.deck.dropLast })

/-- `dealHoleCards`' loop: two cards to each player in seat order. -/
def dealHoleGo : ℕ → ℕ → GameState → Except Err GameState
  | 0, _, s => .ok s
  | n + 1, i, s =>
    match drawCard s with
    | .error e => .error e
    | .ok (c1, s1) =>
      match drawCard s1 with
      | .error e => .error e
      | .ok (c2, s2) =>
        dealHoleGo n (i + 1) (setPlayer s2 i { getPlayer s2 i with holeCards := [c1, c2] })

def dealHoleCards (s : GameState) : Except Err GameState :=
  match dealHoleGo s.players.length 0 s with
  | .error e => .error e
  | .ok s1 => .ok { s1 with log := s1.log ++ ["Hole cards dealt"] }

/-- `startHand`, with the freshly shuffled deck passed in explicitly: resets
per-hand state, rotates the button, posts the two blinds, sets the current
bet to the big blind, deals hole cards and seats the first actor after the
big blind. -/
def startHand (deck : List Card) (s : GameState) : Except Err GameState :=
  let s0 : GameState :=
    { s with deck := deck, communityCards := [], mainPot := 0, currentBet := 0,
             stage := .preflop, roundOver := false, winners := [],
             log := ["New hand started"],
             players := s.players.map (fun p =>
               { p with bet := 0, folded := false, holeCards := [],
                        handEvaluation := none }) }
  let n := s0.players.length
  let d := (s.dealerIndex + 1) % n
  let sb := (d + 1) % n
  let bb := (d + 2) % n
  let s3 := postBlind bb BIG_BLIND (postBlind sb SMALL_BLIND { s0 with dealerIndex := d })
  match dealHoleCards { s3 with currentBet := BIG_BLIND } with
  | .error e => .error e
  | .ok s5 =>
    .ok { s5 with currentPlayerIndex := (bb + 1) % n,
                  log := s5.log ++ ["Blinds posted"] }

/-- `nextPlayer`'s index advance, a do-while that skips folded or broke
players and stops after one full lap (fuel `players.length` suffices). -/
def nextPlayerIdxGo (ps : List Player) (start : ℕ) : ℕ → ℕ → ℕ
  | 0, i => i
  | fuel + 1, i =>
    if i = start then i
    else if (ps.getD i defaultPlayer).folded || ((ps.getD i defaultPlayer).chips == 0) then
      nextPlayerIdxGo ps start fuel ((i + 1) % ps.length)
    else i

def nextPlayerIdx (ps : List Player) (start : ℕ) : ℕ :=
  nextPlayerIdxGo ps start ps.length ((start + 1) % ps.length)

/-- Indices of non-folded players, in seat order (`players.filter(!folded)`). -/
def activeIndices (s : GameState) : List ℕ :=
  (List.range s.players.length).filter (fun i => !(getPlayer s i).folded)

def addChips (per : ℤ) (st : GameState) (i : ℕ) : GameState :=
  setPlayer st i { getPlayer st i with chips := (getPlayer st i).chips + per }

/-- `awardPot`: floor-splits the pot among the winners, gives any positive
remainder to `winners[0]` and zeroes the pot. `Math.floor(pot / n)` and
`pot % n` are `Int.fdiv`/`Int.fmod`; the two agree with JavaScript on every
reachable (non-negative) pot. -/
def awardPot (ws : List ℕ) (s : GameState) : GameState :=
  if ws.isEmpty then s
  else
    let per := s.mainPot.fdiv (ws.length : ℤ)
    let s1 := ws.foldl (addChips per) s
    let rem := s.mainPot.fmod (ws.length : ℤ)
    let s2 := if 0 < rem then addChips rem s1 (ws.headD 0) else s1
    { s2 with mainPot := 0 }

/-- `endHand`: pot to the lone remaining player, hand over. -/
def endHand (ws : List ℕ) (s : GameState) : GameState :=
  let s1 := awardPot ws s
  { s1 with winners := ws, log := s1.log ++ ["Hand over"],
            stage := .showdown, roundOver := true }

/-- Comparison key used when sorting players at showdown (0 when a player
has no evaluation, as the source comparator returns 0 then). -/
def evalValue (p : Player) : ℕ :=
  match p.handEvaluation with
  | some e => e.value
  | none => 0

/-- Evaluate each listed player's hole+community cards at showdown. -/
def evalActives : List ℕ → GameState → Except Err GameState
  | [], s => .ok s
  | i :: is, s =>
    match evaluateHandZ ((getPlayer s i).holeCards ++ s.communityCards) with
    | .error e => .error e
    | .ok ev => evalActives is (setPlayer s i { getPlayer s i with handEvaluation := some ev })

/-- Stable descending insertion by hand value, modelling the JavaScript
stable `sort((a, b) => b.value - a.value)` over the active players. -/
def insertIdxByValue (s : GameState) (i : ℕ) : List ℕ → List ℕ
  | [] => [i]
  | j :: js =>
    if evalValue (getPlayer s j) ≤ evalValue (getPlayer s i) then i :: j :: js
    else j :: insertIdxByValue s i js

def sortIdxByValue (s : GameState) : List ℕ → List ℕ
  | [] => []
  | i :: is => insertIdxByValue s i (sortIdxByValue s is)

/-- The winner-collection loop of `showdown`: pushes the first player, then
every subsequent one whose value matches the leader's. -/
def pickStep (s : GameState) (acc : List ℕ × ℤ) (i : ℕ) : List ℕ × ℤ :=
  match (getPlayer s i).handEvaluation with
  | none => acc
  | some ev =>
    if acc.1.isEmpty || ((ev.value : ℤ) == acc.2) then (acc.1 ++ [i], (ev.value : ℤ))
    else acc

def pickWinners (s : GameState) (sorted : List ℕ) : List ℕ :=
  (sorted.foldl (pickStep s) ([], -1)).1

/-- `showdown`: evaluate all non-folded hands, rank them, split the pot. -/
def showdown (s : GameState) : Except Err GameState :=
  let s1 : GameState := { s with stage := .showdown }
  let active := activeIndices s1
  match evalActives active s1 with
  | .error e => .error e
  | .ok s2 =>
    let ws := pickWinners s2 (sortIdxByValue s2 active)
    let s3 := awardPot ws s2
    .ok { s3 with winners := ws, roundOver := true, log := s3.log ++ ["Showdown"] }

def dealFlop (s : GameState) : Except Err GameState :=
  match drawCard s with
  | .error e => .error e
  | .ok (_, s1) =>
    match drawCard s1 with
    | .error e => .error e
    | .ok (c1, s2) =>
      match drawCard s2 with
      | .error e => .error e
      | .ok (c2, s3) =>
        match drawCard s3 with
        | .error e => .error e
        | .ok (c3, s4) =>
          .ok { s4 with communityCards := s4.communityCards ++ [c1, c2, c3],
                        stage := .flop, log := s4.log ++ ["Flop dealt"] }

def dealTurn (s : GameState) : Except Err GameState :=
  match drawCard s with
  | .error e => .error e
  | .ok (_, s1) =>
    match drawCard s1 with
    | .error e => .error e
    | .ok (c1, s2) =>
      .ok { s2 with communityCards := s2.communityCards ++ [c1],
                    stage := .turn, log := s2.log ++ ["Turn dealt"] }

def dealRiver (s : GameState) : Except Err GameState :=
  match drawCard s with
  | .error e => .error e
  | .ok (_, s1) =>
    match drawCard s1 with
    | .error e => .error e
    | .ok (c1, s2) =>
      .ok { s2 with communityCards := s2.communityCards ++ [c1],
                    stage := .river, log := s2.log ++ ["River dealt"] }

/-- `resetBetsForNewStage`: zero the table bet and per-stage bets, seat the
actor after the button, skipping folded/broke players (break after a lap). -/
def resetIdxGo (ps : List Player) (first : ℕ) : ℕ → ℕ → ℕ
  | 0, i => i
  | fuel + 1, i =>
    if (ps.getD i defaultPlayer).folded || ((ps.getD i defaultPlayer).chips == 0) then
      if (i + 1) % ps.length = first then (i + 1) % ps.length
      else resetIdxGo ps first fuel ((i + 1) % ps.length)
    else i

def resetBetsForNewStage (s : GameState) : GameState :=
  let ps := s.players.map (fun p => { p with bet := 0 })
  let first := (s.dealerIndex + 1) % ps.length
  { s with currentBet := 0, players := ps,
           currentPlayerIndex := resetIdxGo ps first ps.length first }

/-- `moveToNextStage`: deal the next street (or run the showdown), then
reset the per-stage bets — the source calls `resetBetsForNewStage`
unconditionally after the stage switch. -/
def moveToNextStage (s : GameState) : Except Err GameState :=
  let r : Except Err GameState :=
    match s.stage with
    | .preflop => dealFlop s
    | .flop => dealTurn s
    | .turn => dealRiver s
    | .river => showdown s
    | .showdown => .ok { s with roundOver := true }
  match r with
  | .error e => .error e
  | .ok s1 => .ok (resetBetsForNewStage s1)

/-- `checkBettingRoundComplete`: lone survivor wins immediately; otherwise
the stage advances when every active player has matched the current bet or
is all-in. -/
def checkBettingRoundComplete (s : GameState) : Except Err GameState :=
  let active := activeIndices s
  if active.length = 1 then .ok (endHand [active.headD 0] s)
  else if active.all (fun i =>
      ((getPlayer s i).bet == s.currentBet) || ((getPlayer s i).chips == 0)) then
    moveToNextStage s
  else .ok s

def nextPlayer (s : GameState) : Except Err GameState :=
  checkBettingRoundComplete
    { s with currentPlayerIndex := nextPlayerIdx s.players s.currentPlayerIndex }

def applyFold (s : GameState) : GameState :=
  let p := getPlayer s s.currentPlayerIndex
  { s with players := s.players.set s.currentPlayerIndex { p with folded := true },
           log := s.log ++ [p.name ++ " folds"] }

def applyCall (s : GameState) : GameState :=
  let p := getPlayer s s.currentPlayerIndex
  let callAmount := min (s.currentBet - p.bet) p.chips
  { s with players := s.players.set s.currentPlayerIndex
             { p with chips := p.chips - callAmount, bet := p.bet + callAmount },
           mainPot := s.mainPot + callAmount,
           log := s.log ++ [p.name ++ " calls " ++ toString callAmount] }

/-- The `raise` case: clamp the raise up to the minimum bet, put in
`min(currentBet + amount - bet, chips)`, and set the table bet to the
raiser's resulting total bet — unconditionally. -/
def applyRaise (amount : ℤ) (s : GameState) : GameState :=
  let p := getPlayer s s.currentPlayerIndex
  let amt := if amount < s.minBet then s.minBet else amount
  let raiseAmount := min (s.currentBet + amt - p.bet) p.chips
  { s with players := s.players.set s.currentPlayerIndex
             { p with chips := p.chips - raiseAmount, bet := p.bet + raiseAmount },
           mainPot := s.mainPot + raiseAmount,
           currentBet := p.bet + raiseAmount,
           log := s.log ++ [p.name ++ " raises to " ++ toString (p.bet + raiseAmount)] }

def applyAllin (s : GameState) : GameState :=
  let p := getPlayer s s.currentPlayerIndex
  let allinAmount := p.chips
  { s with players := s.players.set s.currentPlayerIndex
             { p with chips := 0, bet := p.bet + allinAmount },
           mainPot := s.mainPot + allinAmount,
           currentBet := if s.currentBet < p.bet + allinAmount then p.bet + allinAmount
                         else s.currentBet,
           log := s.log ++ [p.name ++ " goes all-in"] }

/-- The `switch (action)` body of `playerAction`; `check` throws before any
mutation when a call is owed, so the caller's state is untouched. -/
def applyActionCore (a : PlayerAction) (amount : ℤ) (s : GameState) : Except Err GameState :=
  match a with
  | .fold => .ok (applyFold s)
  | .check =>
    if (getPlayer s s.currentPlayerIndex).bet < s.currentBet then .error .illegalCheck
    else .ok { s with log := s.log ++ [(getPlayer s s.currentPlayerIndex).name ++ " checks"] }
  | .call => .ok (applyCall s)
  | .raise => .ok (applyRaise amount s)
  | .allin => .ok (applyAllin s)

/-- `playerAction`: apply the switch, then `nextPlayer()` (which may cascade
through stage advancement all the way to showdown). -/
def playerAction (a : PlayerAction) (amount : ℤ) (s : GameState) : Except Err GameState :=
  match applyActionCore a amount s with
  | .error e => .error e
  | .ok s1 => nextPlayer s1

/-- The constructor's initial state (the user seats first, the AI starts as
dealer); the constructor's shuffled deck is `stdDeck` here, unused because
`startHand` rebuilds the deck. -/
def SUITS : List Suit := [.hearts, .diamonds, .clubs, .spades]

def RANKS : List ℕ := [2, 3, 4, 5, 6, 7, 8, 9, 10, 11, 12, 13, 14]

def stdDeck : List Card :=
  (SUITS.map (fun su => RANKS.map (fun r => Card.mk su r))).flatten

def initState : GameState :=
  { deck := stdDeck
    players :=
      [{ name := "You", chips := STARTING_CHIPS, bet := 0, folded := false,
         holeCards := [], handEvaluation := none },
       { name := "Dealer", chips := STARTING_CHIPS, bet := 0, folded := false,
         holeCards := [], handEvaluation := none }]
    communityCards := [], stage := .preflop, currentPlayerIndex := 0, dealerIndex := 1
    mainPot := 0, minBet := MIN_BET, currentBet := 0, winners := [], roundOver := false
    log := ["New game started"] }

/-- The state after the first `startHand` on the constructor state (used as
a concrete evaluation point). -/
def startHandEx : GameState :=
  match startHand stdDeck initState with
  | .ok t => t
  | .error _ => initState

/-- A heads-up state where the opponent has 100 in and the actor, with 30
chips, raises: the raise branch computes min(100 + 10 - 0, 30) = 30 and sets
the table bet to 30 — below the standing 100. -/
def exRaiseState : GameState :=
  { initState with
      players :=
        [{ name := "You", chips := 30, bet := 0, folded := false, holeCards := [],
           handEvaluation := none },
         { name := "Dealer", chips := 890, bet := 100, folded := false, holeCards := [],
           handEvaluation := none }],
      mainPot := 100, currentBet := 100, currentPlayerIndex := 0 }

/-! ## The in-hand invariant: pot conservation and deck accounting -/

def chipSum (s : GameState) : ℤ := (s.players.map Player.chips).sum

def betSum (s : GameState) : ℤ := (s.players.map Player.bet).sum

/-- Cards remaining at each stage of a hand started from a 52-card deck:
4 hole cards, then 1+3 at the flop, 1+1 at the turn and 1+1 at the river. -/
def stageDeckBound (s : GameState) : Prop :=
  match s.stage with
  | .preflop => s.deck.length = 48
  | .flop => s.deck.length = 44
  | .turn => s.deck.length = 42
  | .river => s.deck.length = 40
  | .showdown => 40 ≤ s.deck.length

/-- The invariant maintained at every reachable state of a heads-up hand;
`T` is the total chips in play when the hand started. -/
structure HandInv (T : ℤ) (s : GameState) : Prop where
  twoPlayers : s.players.length = 2
  conserved : chipSum s + s.mainPot = T
  chipsNonneg : ∀ p ∈ s.players, 0 ≤ p.chips
  betsNonneg : ∀ p ∈ s.players, 0 ≤ p.bet
  curBetNonneg : 0 ≤ s.currentBet
  minBetEq : s.minBet = 10
  idxLt : s.currentPlayerIndex < 2
  potGeBets : s.roundOver = false → betSum s ≤ s.mainPot
  potZeroAtEnd : s.roundOver = true → s.mainPot = 0
  activeTwo : s.roundOver = false → (activeIndices s).length = 2
  activeOne : 1 ≤ (activeIndices s).length
  showdownOver : s.stage = .showdown → s.roundOver = true
  deckBound : stageDeckBound s

/-- States reachable from `s0` by successful player actions during a hand
(the driver stops acting once `roundOver` is set). -/
inductive Reach (s0 : GameState) : GameState → Prop
  | refl : Reach s0 s0
  | step {s t : GameState} (a : PlayerAction) (amt : ℤ) :
      Reach s0 s → s.roundOver = false → playerAction a amt s = .ok t → Reach s0 t

/-- A showdown-ready pot of 101 with two tied evaluated players, used to
exercise the odd-chip split. -/
def oddPotState : GameState :=
  { deck := []
    players :=
      [{ name := "A", chips := 0, bet := 0, folded := false, holeCards := [],
         handEvaluation := some { rank := .pair, cards := [], value := 2 } },
       { name := "B", chips := 0, bet := 0, folded := false, holeCards := [],
         handEvaluation := some { rank := .pair, cards := [], value := 2 } }]
    communityCards := []
    stage := .showdown
    currentPlayerIndex := 0
    dealerIndex := 0
    mainPot := 101
    minBet := 10
    currentBet := 0
    winners := []
    roundOver := false
    log := [] }

/-- A complete heads-up hand: the small blind calls preflop, then both
players check every street down to the automatic showdown. -/
def runC8 : Except Err GameState :=
  (((startHand stdDeck initState).bind (playerAction .call 0)).bind
      (playerAction .check 0) |>.bind (playerAction .check 0)).bind
    (playerAction .check 0)

/-- `getCombinations`: all k-element combinations, first-in/first-out order. -/
theorem evalBranches (cards : List Card) :
    (handRankOf cards = .royalFlush ∧
      getHandValue cards = 10 * 15 + (headRank cards : ℚ) ∧
      getHandValueZ cards = 1000000 * (10 * 15 + (headRank cards : ℤ))) ∨
    (handRankOf cards = .straightFlush ∧
      getHandValue cards = 9 * 15 + (headRank cards : ℚ) ∧
      getHandValueZ cards = 1000000 * (9 * 15 + (headRank cards : ℤ))) ∨
    (handRankOf cards = .fourKind ∧
      getHandValue cards = 8 * 15 + (getFourKindValue cards : ℚ) +
        (optRankN (cards.find? (fun c => c.rank != getFourKindValue cards)) : ℚ) / 100 ∧
      getHandValueZ cards = 1000000 * (8 * 15 + (getFourKindValue cards : ℤ)) +
        10000 * (optRankN (cards.find? (fun c => c.rank != getFourKindValue cards)) : ℤ)) ∨
    (handRankOf cards = .fullHouse ∧
      getHandValue cards = 7 * 15 + (getThreeKindValue cards : ℚ) + (getPairValue cards : ℚ) / 100 ∧
      getHandValueZ cards = 1000000 * (7 * 15 + (getThreeKindValue cards : ℤ)) +
        10000 * (getPairValue cards : ℤ)) ∨
    (handRankOf cards = .flush ∧
      getHandValue cards = 6 * 15 + (getHighCard cards : ℚ) ∧
      getHandValueZ cards = 1000000 * (6 * 15 + (getHighCard cards : ℤ))) ∨
    (handRankOf cards = .straight ∧
      getHandValue cards = 5 * 15 + (headRank cards : ℚ) ∧
      getHandValueZ cards = 1000000 * (5 * 15 + (headRank cards : ℤ))) ∨
    (handRankOf cards = .threeKind ∧
      getHandValue cards = 4 * 15 + (getThreeKindValue cards : ℚ) +
        (kickRankN (kickersExcluding (getThreeKindValue cards) cards) 0 : ℚ) / 100 +
        (kickRankN (kickersExcluding (getThreeKindValue cards) cards) 1 : ℚ) / 10000 ∧
      getHandValueZ cards = 1000000 * (4 * 15 + (getThreeKindValue cards : ℤ)) +
        10000 * (kickRankN (kickersExcluding (getThreeKindValue cards) cards) 0 : ℤ) +
        100 * (kickRankN (kickersExcluding (getThreeKindValue cards) cards) 1 : ℤ)) ∨
    (handRankOf cards = .twoPair ∧
      getHandValue cards = 3 * 15 + ((getTwoPairValues cards).getD 0 0 : ℚ) +
        ((getTwoPairValues cards).getD 1 0 : ℚ) / 100 +
        (optRankN (cards.find? (fun c =>
          (c.rank != (getTwoPairValues cards).getD 0 0) &&
          (c.rank != (getTwoPairValues cards).getD 1 0))) : ℚ) / 10000 ∧
      getHandValueZ cards = 1000000 * (3 * 15 + ((getTwoPairValues cards).getD 0 0 : ℤ)) +
        10000 * ((getTwoPairValues cards).getD 1 0 : ℤ) +
        100 * (optRankN (cards.find? (fun c =>
          (c.rank != (getTwoPairValues cards).getD 0 0) &&
          (c.rank != (getTwoPairValues cards).getD 1 0))) : ℤ)) ∨
    (handRankOf cards = .pair ∧
      getHandValue cards = 2 * 15 + (getPairValue cards : ℚ) +
        (kickRankN (kickersExcluding (getPairValue cards) cards) 0 : ℚ) / 100 +
        (kickRankN (kickersExcluding (getPairValue cards) cards) 1 : ℚ) / 10000 +
        (kickRankN (kickersExcluding (getPairValue cards) cards) 2 : ℚ) / 1000000 ∧
      getHandValueZ cards = 1000000 * (2 * 15 + (getPairValue cards : ℤ)) +
        10000 * (kickRankN (kickersExcluding (getPairValue cards) cards) 0 : ℤ) +
        100 * (kickRankN (kickersExcluding (getPairValue cards) cards) 1 : ℤ) +
        (kickRankN (kickersExcluding (getPairValue cards) cards) 2 : ℤ)) ∨
    (handRankOf cards = .highCard ∧
      getHandValue cards = 1 * 15 + (getHighCard cards : ℚ) ∧
      getHandValueZ cards = 1000000 * (1 * 15 + (getHighCard cards : ℤ))) := by
  by_cases h1 : isRoyalFlush cards = true
  · refine Or.inl ⟨?_, ?_, ?_⟩
    · unfold handRankOf; rw [if_pos h1]
    · unfold getHandValue; rw [if_pos h1]
    · unfold getHandValueZ; rw [if_pos h1]
  by_cases h2 : isStraightFlush cards = true
  · refine Or.inr (Or.inl ⟨?_, ?_, ?_⟩)
    · unfold handRankOf; rw [if_neg h1, if_pos h2]
    · unfold getHandValue; rw [if_neg h1, if_pos h2]
    · unfold getHandValueZ; rw [if_neg h1, if_pos h2]
  by_cases h3 : isFourOfAKind cards = true
  · refine Or.inr (Or.inr (Or.inl ⟨?_, ?_, ?_⟩))
    · unfold handRankOf; rw [if_neg h1, if_neg h2, if_pos h3]
    · unfold getHandValue; rw [if_neg h1, if_neg h2, if_pos h3]
    · unfold getHandValueZ; rw [if_neg h1, if_neg h2, if_pos h3]
  by_cases h4 : isFullHouse cards = true
  · refine Or.inr (Or.inr (Or.inr (Or.inl ⟨?_, ?_, ?_⟩)))
    · unfold handRankOf; rw [if_neg h1, if_neg h2, if_neg h3, if_pos h4]
    · unfold getHandValue; rw [if_neg h1, if_neg h2, if_neg h3, if_pos h4]
    · unfold getHandValueZ; rw [if_neg h1, if_neg h2, if_neg h3, if_pos h4]
  by_cases h5 : isFlush cards = true
  · refine Or.inr (Or.inr (Or.inr (Or.inr (Or.inl ⟨?_, ?_, ?_⟩))))
    · unfold handRankOf; rw [if_neg h1, if_neg h2, if_neg h3, if_neg h4, if_pos h5]
    · unfold getHandValue; rw [if_neg h1, if_neg h2, if_neg h3, if_neg h4, if_pos h5]
    · unfold getHandValueZ; rw [if_neg h1, if_neg h2, if_neg h3, if_neg h4, if_pos h5]
  by_cases h6 : isStraight cards = true
  · refine Or.inr (Or.inr (Or.inr (Or.inr (Or.inr (Or.inl ⟨?_, ?_, ?_⟩)))))
    · unfold handRankOf; rw [if_neg h1, if_neg h2, if_neg h3, if_neg h4, if_neg h5, if_pos h6]
    · unfold getHandValue; rw [if_neg h1, if_neg h2, if_neg h3, if_neg h4, if_neg h5, if_pos h6]
    · unfold getHandValueZ; rw [if_neg h1, if_neg h2, if_neg h3, if_neg h4, if_neg h5, if_pos h6]
  by_cases h7 : isThreeOfAKind cards = true
  · refine Or.inr (Or.inr (Or.inr (Or.inr (Or.inr (Or.inr (Or.inl ⟨?_, ?_, ?_⟩))))))
    · unfold handRankOf
      rw [if_neg h1, if_neg h2, if_neg h3, if_neg h4, if_neg h5, if_neg h6, if_pos h7]
    · unfold getHandValue
      rw [if_neg h1, if_neg h2, if_neg h3, if_neg h4, if_neg h5, if_neg h6, if_pos h7]
    · unfold getHandValueZ
      rw [if_neg h1, if_neg h2, if_neg h3, if_neg h4, if_neg h5, if_neg h6, if_pos h7]
  by_cases h8 : isTwoPair cards = true
  · refine Or.inr (Or.inr (Or.inr (Or.inr (Or.inr (Or.inr (Or.inr (Or.inl ⟨?_, ?_, ?_⟩)))))))
    · unfold handRankOf
      rw [if_neg h1, if_neg h2, if_neg h3, if_neg h4, if_neg h5, if_neg h6, if_neg h7, if_pos h8]
    · unfold getHandValue
      rw [if_neg h1, if_neg h2, if_neg h3, if_neg h4, if_neg h5, if_neg h6, if_neg h7, if_pos h8]
    · unfold getHandValueZ
      rw [if_neg h1, if_neg h2, if_neg h3, if_neg h4, if_neg h5, if_neg h6, if_neg h7, if_pos h8]
  by_cases h9 : isPair cards = true
  · refine Or.inr (Or.inr (Or.inr (Or.inr (Or.inr (Or.inr (Or.inr (Or.inr (Or.inl ⟨?_, ?_, ?_⟩))))))))
    · unfold handRankOf
      rw [if_neg h1, if_neg h2, if_neg h3, if_neg h4, if_neg h5, if_neg h6, if_neg h7, if_neg h8,
        if_pos h9]
    · unfold getHandValue
      rw [if_neg h1, if_neg h2, if_neg h3, if_neg h4, if_neg h5, if_neg h6, if_neg h7, if_neg h8,
        if_pos h9]
    · unfold getHandValueZ
      rw [if_neg h1, if_neg h2, if_neg h3, if_neg h4, if_neg h5, if_neg h6, if_neg h7, if_neg h8,
        if_pos h9]
  · refine Or.inr (Or.inr (Or.inr (Or.inr (Or.inr (Or.inr (Or.inr (Or.inr (Or.inr ⟨?_, ?_, ?_⟩))))))))
    · unfold handRankOf
      rw [if_neg h1, if_neg h2, if_neg h3, if_neg h4, if_neg h5, if_neg h6, if_neg h7, if_neg h8,
        if_neg h9]
    · unfold getHandValue
      rw [if_neg h1, if_neg h2, if_neg h3, if_neg h4, if_neg h5, if_neg h6, if_neg h7, if_neg h8,
        if_neg h9]
    · unfold getHandValueZ
      rw [if_neg h1, if_neg h2, if_neg h3, if_neg h4, if_neg h5, if_neg h6, if_neg h7, if_neg h8,
        if_neg h9]

theorem getHandValueZ_eq (cards : List Card) :
    (getHandValueZ cards : ℚ) = 1000000 * getHandValue cards := by
  rcases evalBranches cards with ⟨_, hq, hz⟩ | ⟨_, hq, hz⟩ | ⟨_, hq, hz⟩ | ⟨_, hq, hz⟩ |
    ⟨_, hq, hz⟩ | ⟨_, hq, hz⟩ | ⟨_, hq, hz⟩ | ⟨_, hq, hz⟩ | ⟨_, hq, hz⟩ | ⟨_, hq, hz⟩ <;>
    rw [hz, hq] <;> push_cast <;> ring

theorem bestStepZ_eq (c : List Card) (accQ : ℚ × List Card) (accZ : ℤ × List Card)
    (h1 : (accZ.1 : ℚ) = 1000000 * accQ.1) (h2 : accZ.2 = accQ.2) :
    ((bestStepZ accZ c).1 : ℚ) = 1000000 * (bestStep accQ c).1 ∧
    (bestStepZ accZ c).2 = (bestStep accQ c).2 := by
  have hlt : accZ.1 < getHandValueZ (sortDesc c) ↔ accQ.1 < getHandValue (sortDesc c) := by
    constructor
    · intro h
      have h' : (accZ.1 : ℚ) < (getHandValueZ (sortDesc c) : ℚ) := by exact_mod_cast h
      rw [h1, getHandValueZ_eq] at h'
      linarith
    · intro h
      have h' : (accZ.1 : ℚ) < (getHandValueZ (sortDesc c) : ℚ) := by
        rw [h1, getHandValueZ_eq]
        linarith
      exact_mod_cast h'
  unfold bestStepZ bestStep
  by_cases hc : accQ.1 < getHandValue (sortDesc c)
  · rw [if_pos hc, if_pos (hlt.mpr hc)]
    exact ⟨getHandValueZ_eq (sortDesc c), rfl⟩
  · rw [if_neg hc, if_neg (fun hz => hc (hlt.mp hz))]
    exact ⟨h1, h2⟩

theorem foldl_bestStepZ_eq (combos : List (List Card)) (accQ : ℚ × List Card)
    (accZ : ℤ × List Card) (h1 : (accZ.1 : ℚ) = 1000000 * accQ.1) (h2 : accZ.2 = accQ.2) :
    ((combos.foldl bestStepZ accZ).1 : ℚ) = 1000000 * (combos.foldl bestStep accQ).1 ∧
    (combos.foldl bestStepZ accZ).2 = (combos.foldl bestStep accQ).2 := by
  induction combos generalizing accQ accZ with
  | nil => exact ⟨h1, h2⟩
  | cons c cs ih =>
    simp only [List.foldl_cons]
    exact ih (bestStep accQ c) (bestStepZ accZ c) (bestStepZ_eq c accQ accZ h1 h2).1
      (bestStepZ_eq c accQ accZ h1 h2).2

theorem getBestFiveCardHandZ_eq (cards : List Card) :
    getBestFiveCardHandZ cards = getBestFiveCardHand cards := by
  unfold getBestFiveCardHandZ getBestFiveCardHand
  split_ifs with h
  · rfl
  · exact (foldl_bestStepZ_eq (getCombinations cards 5) ((-1 : ℚ), ([] : List Card))
      ((-1000000 : ℤ), ([] : List Card)) (by norm_num) rfl).2

theorem evaluateHandZ_eq (cards : List Card) : evaluateHandZ cards = evaluateHand cards := by
  unfold evaluateHandZ evaluateHand
  rw [getBestFiveCardHandZ_eq]

/-- C1: the comparable value `evaluateHand` returns (and showdown compares) is
the bare category ordinal, so two pair-of-aces hands with different kickers
both evaluate to value 2 and compare equal, contradicting the claim that
same-category hands with different kickers never tie. -/
theorem c1_value_ignores_kickers :
    evalValueOf handAcesHighKickers = some 2 ∧
    evalValueOf handAcesLowKickers = some 2 ∧
    evalRankOf handAcesHighKickers = some .pair ∧
    evalRankOf handAcesLowKickers = some .pair := by
  refine ⟨?_, ?_, ?_, ?_⟩ <;> decide

/-- C2: the A-2-3-4-5 wheel plus two unrelated cards is classified as a
straight, but its comparable value (5, the category ordinal) equals — is not
strictly lower than — that of a 6-to-10 straight; internally `getHandValue`
even rates the wheel as ace-high (5·15 + 14 = 89 > 85 = 5·15 + 10). -/
theorem c2_wheel_not_five_high :
    evalRankOf wheelSeven = some .straight ∧
    evalValueOf wheelSeven = some 5 ∧
    evalValueOf tenHighStraight = some 5 ∧
    getHandValue (sortDesc wheelFive) = 89 ∧
    getHandValue (sortDesc tenHighStraight) = 85 := by
  have hz1 : getHandValueZ (sortDesc wheelFive) = 89000000 := by decide
  have hz2 : getHandValueZ (sortDesc tenHighStraight) = 85000000 := by decide
  have hq1 : getHandValue (sortDesc wheelFive) = 89 := by
    have h := getHandValueZ_eq (sortDesc wheelFive)
    rw [hz1] at h
    push_cast at h
    linarith
  have hq2 : getHandValue (sortDesc tenHighStraight) = 85 := by
    have h := getHandValueZ_eq (sortDesc tenHighStraight)
    rw [hz2] at h
    push_cast at h
    linarith
  refine ⟨?_, ?_, ?_, hq1, hq2⟩
  · simp only [evalRankOf, ← evaluateHandZ_eq]
    decide
  · simp only [evalValueOf, ← evaluateHandZ_eq]
    decide
  · simp only [evalValueOf, ← evaluateHandZ_eq]
    decide

/-- C3: a 5-high straight flush sorts as [A,5,4,3,2], so `isRoyalFlush` sees
`cards[0].rank = 14` and classifies it as a royal flush with value 10 — equal
to a genuine royal flush, not the strictly smaller straight-flush value the
claimed category ordering requires. -/
theorem c3_steel_wheel_is_misclassified :
    evalRankOf steelWheel = some .royalFlush ∧
    evalValueOf steelWheel = some 10 ∧
    evalRankOf royalHearts = some .royalFlush ∧
    evalValueOf royalHearts = some 10 := by
  refine ⟨?_, ?_, ?_, ?_⟩ <;> decide

/-- C9: a pair of aces preflop gives the AI hand-strength 0.5 + ((14−2)/12)·0.4
= 0.9, strictly above 0.85; the heuristic is a pure function of the hole
cards, hence deterministic across repeated evaluations. -/
theorem c9_pocket_aces_strength (c1 c2 : Card)
    (h1 : c1.rank = 14) (h2 : c2.rank = 14) :
    calculatePreflopHandStrength [c1, c2] = 9 / 10 ∧
    (85 / 100 : ℚ) < calculatePreflopHandStrength [c1, c2] := by
  have : calculatePreflopHandStrength [c1, c2] = 9 / 10 := by
    simp only [calculatePreflopHandStrength, List.map_cons, List.map_nil, List.getD, h1, h2]
    norm_num
  exact ⟨this, by rw [this]; norm_num⟩

/-- Witness for C9 at a concrete pair of aces. -/
theorem c9_pocket_aces_strength_witness :
    calculatePreflopHandStrength [⟨.spades, 14⟩, ⟨.hearts, 14⟩] = 9 / 10 ∧
    (85 / 100 : ℚ) < calculatePreflopHandStrength [⟨.spades, 14⟩, ⟨.hearts, 14⟩] :=
  c9_pocket_aces_strength ⟨.spades, 14⟩ ⟨.hearts, 14⟩ rfl rfl

/-!
## Game-state embedding

The mutable `GameState` of the `PokerGame` class, rendered functionally.
`winners` stores player indices (the source stores references into
`players`; indices render that aliasing). `pots` is dead in the source
(always `[]`, never read) and is elided, as are the display-only `hidden`
flags and the `id`/`isAI` presentation fields. Functions that draw cards or
evaluate hands return `Except Err _` for the source's `throw` sites; the
showdown path calls `evaluateHandZ`, which `evaluateHandZ_eq` proves equal
to the source-literal `evaluateHand`.
-/

/-! ## Generic list helpers -/

theorem getD_set_self {α : Type} (l : List α) (i : ℕ) (p d : α) (h : i < l.length) :
    (l.set i p).getD i d = p := by
  simp [List.getD_eq_getElem?_getD, List.getElem?_set_self h]

theorem getD_set_ne {α : Type} (l : List α) {i j : ℕ} (p d : α) (h : i ≠ j) :
    (l.set i p).getD j d = l.getD j d := by
  simp [List.getD_eq_getElem?_getD, List.getElem?_set_ne h]

theorem getD_map_lt {α β : Type} (f : α → β) (l : List α) (j : ℕ) (d : α) (e : β)
    (h : j < l.length) : (l.map f).getD j e = f (l.getD j d) := by
  simp [List.getD_eq_getElem?_getD, List.getElem?_eq_getElem, h, List.getElem_map]

theorem getD_of_length_le {α : Type} (l : List α) (j : ℕ) (d : α) (h : l.length ≤ j) :
    l.getD j d = d := by
  simp [List.getD_eq_getElem?_getD, List.getElem?_eq_none h]

theorem sum_map_set (f : Player → ℤ) (l : List Player) (i : ℕ) (p : Player)
    (h : i < l.length) :
    ((l.set i p).map f).sum = (l.map f).sum - f (l.getD i defaultPlayer) + f p := by
  induction l generalizing i with
  | nil => simp at h
  | cons q qs ih =>
    cases i with
    | zero => simp [List.set]; ring
    | succ n =>
      simp only [List.set, List.map_cons, List.sum_cons, List.getD_cons_succ]
      rw [ih n (by simpa using h)]
      ring

/-! ## Facts about dealing and blinds -/

theorem setPlayer_players (s : GameState) (i : ℕ) (p : Player) :
    (setPlayer s i p).players = s.players.set i p := rfl

theorem setPlayer_scalars (s : GameState) (i : ℕ) (p : Player) :
    (setPlayer s i p).mainPot = s.mainPot ∧ (setPlayer s i p).currentBet = s.currentBet ∧
    (setPlayer s i p).dealerIndex = s.dealerIndex ∧ (setPlayer s i p).minBet = s.minBet ∧
    (setPlayer s i p).stage = s.stage ∧ (setPlayer s i p).roundOver = s.roundOver ∧
    (setPlayer s i p).winners = s.winners ∧
    (setPlayer s i p).communityCards = s.communityCards ∧
    (setPlayer s i p).deck = s.deck ∧
    (setPlayer s i p).currentPlayerIndex = s.currentPlayerIndex :=
  ⟨rfl, rfl, rfl, rfl, rfl, rfl, rfl, rfl, rfl, rfl⟩

/-- Fields of the player record other than the updated `holeCards` or
`handEvaluation` survive a `setPlayer` that only changes those. -/
theorem getPlayer_set_fields (s : GameState) (i j : ℕ) (p : Player)
    (hb : p.bet = (getPlayer s i).bet) (hc : p.chips = (getPlayer s i).chips)
    (hf : p.folded = (getPlayer s i).folded) (hn : p.name = (getPlayer s i).name) :
    (getPlayer (setPlayer s i p) j).bet = (getPlayer s j).bet ∧
    (getPlayer (setPlayer s i p) j).chips = (getPlayer s j).chips ∧
    (getPlayer (setPlayer s i p) j).folded = (getPlayer s j).folded ∧
    (getPlayer (setPlayer s i p) j).name = (getPlayer s j).name := by
  by_cases hij : i = j
  · subst hij
    by_cases hlt : i < s.players.length
    · unfold getPlayer setPlayer
      rw [getD_set_self _ _ _ _ (by simpa using hlt)]
      exact ⟨hb, hc, hf, hn⟩
    · unfold getPlayer setPlayer
      simp only
      rw [List.set_eq_of_length_le (by omega)]
      exact ⟨rfl, rfl, rfl, rfl⟩
  · unfold getPlayer setPlayer
    rw [getD_set_ne _ _ _ hij]
    exact ⟨rfl, rfl, rfl, rfl⟩

theorem drawCard_ok {s : GameState} {c : Card} {t : GameState}
    (h : drawCard s = .ok (c, t)) :
    t.players = s.players ∧ t.mainPot = s.mainPot ∧ t.currentBet = s.currentBet ∧
    t.dealerIndex = s.dealerIndex ∧ t.minBet = s.minBet ∧ t.stage = s.stage ∧
    t.roundOver = s.roundOver ∧ t.winners = s.winners ∧
    t.communityCards = s.communityCards ∧ t.currentPlayerIndex = s.currentPlayerIndex ∧
    t.deck = s.deck.dropLast ∧ s.deck ≠ [] := by
  unfold drawCard at h
  cases hl : s.deck.getLast? with
  | none => rw [hl] at h; exact absurd h (by simp)
  | some d =>
    rw [hl] at h
    simp only [Except.ok.injEq, Prod.mk.injEq] at h
    obtain ⟨-, ht⟩ := h
    subst ht
    refine ⟨rfl, rfl, rfl, rfl, rfl, rfl, rfl, rfl, rfl, rfl, rfl, fun hnil => ?_⟩
    rw [hnil] at hl
    simp at hl

theorem drawCard_error_iff (s : GameState) :
    (drawCard s = .error .deckExhausted) ↔ s.deck = [] := by
  unfold drawCard
  cases hl : s.deck.getLast? with
  | none => simpa using List.getLast?_eq_none_iff.mp hl
  | some d =>
    simp only [reduceCtorEq, false_iff]
    intro hnil
    rw [hnil] at hl
    simp at hl

theorem dealHoleGo_proj : ∀ (n i : ℕ) (s t : GameState), dealHoleGo n i s = .ok t →
    t.players.length = s.players.length ∧
    (∀ j, (getPlayer t j).bet = (getPlayer s j).bet ∧
          (getPlayer t j).chips = (getPlayer s j).chips ∧
          (getPlayer t j).folded = (getPlayer s j).folded ∧
          (getPlayer t j).name = (getPlayer s j).name) ∧
    t.mainPot = s.mainPot ∧ t.currentBet = s.currentBet ∧ t.dealerIndex = s.dealerIndex ∧
    t.minBet = s.minBet ∧ t.stage = s.stage ∧ t.roundOver = s.roundOver ∧
    t.winners = s.winners ∧ t.communityCards = s.communityCards ∧
    t.deck.length + 2 * n = s.deck.length := by
  intro n
  induction n with
  | zero =>
    intro i s t h
    unfold dealHoleGo at h
    simp only [Except.ok.injEq] at h
    subst h
    exact ⟨rfl, fun j => ⟨rfl, rfl, rfl, rfl⟩, rfl, rfl, rfl, rfl, rfl, rfl, rfl, rfl, by omega⟩
  | succ n ih =>
    intro i s t h
    unfold dealHoleGo at h
    split at h
    · exact absurd h (by simp)
    · rename_i c1 s1 h1
      split at h
      · exact absurd h (by simp)
      · rename_i c2 s2 h2
        obtain ⟨hp1, hpot1, hcb1, hdi1, hmb1, hst1, hro1, hw1, hcc1, hcp1, hdk1, hne1⟩ :=
          drawCard_ok h1
        obtain ⟨hp2, hpot2, hcb2, hdi2, hmb2, hst2, hro2, hw2, hcc2, hcp2, hdk2, hne2⟩ :=
          drawCard_ok h2
        obtain ⟨ihl, ihp, ihpot, ihcb, ihdi, ihmb, ihst, ihro, ihw, ihcc, ihdl⟩ :=
          ih (i + 1) _ t h
        have hgp2 : ∀ j, getPlayer s2 j = getPlayer s j := by
          intro j
          unfold getPlayer
          rw [hp2, hp1]
        have hfields := getPlayer_set_fields s2 i 0
          { getPlayer s2 i with holeCards := [c1, c2] } rfl rfl rfl rfl
        constructor
        · rw [ihl, setPlayer_players, List.length_set, hp2, hp1]
        refine ⟨fun j => ?_, ?_, ?_, ?_, ?_, ?_, ?_, ?_, ?_, ?_⟩
        · obtain ⟨hb, hc, hf, hn⟩ := ihp j
          obtain ⟨hb2, hc2, hf2, hn2⟩ := getPlayer_set_fields s2 i j
            { getPlayer s2 i with holeCards := [c1, c2] } rfl rfl rfl rfl
          rw [hb, hb2, hc, hc2, hf, hf2, hn, hn2, hgp2]
          exact ⟨rfl, rfl, rfl, rfl⟩
        · rw [ihpot, (setPlayer_scalars _ _ _).1, hpot2, hpot1]
        · rw [ihcb, (setPlayer_scalars _ _ _).2.1, hcb2, hcb1]
        · rw [ihdi, (setPlayer_scalars _ _ _).2.2.1, hdi2, hdi1]
        · rw [ihmb, (setPlayer_scalars _ _ _).2.2.2.1, hmb2, hmb1]
        · rw [ihst, (setPlayer_scalars _ _ _).2.2.2.2.1, hst2, hst1]
        · rw [ihro, (setPlayer_scalars _ _ _).2.2.2.2.2.1, hro2, hro1]
        · rw [ihw, (setPlayer_scalars _ _ _).2.2.2.2.2.2.1, hw2, hw1]
        · rw [ihcc, (setPlayer_scalars _ _ _).2.2.2.2.2.2.2.1, hcc2, hcc1]
        · have hdk : s2.deck.length + 2 = s.deck.length := by
            rw [hdk2, hdk1]
            rw [List.length_dropLast, List.length_dropLast]
            have h1 : 1 ≤ s.deck.length := List.length_pos.mpr hne1
            have h2 : 1 ≤ s.deck.dropLast.length := by
              rw [hdk1] at hne2
              exact List.length_pos.mpr hne2
            rw [List.length_dropLast] at h2
            omega
          have := (setPlayer_scalars s2 i { getPlayer s2 i with holeCards := [c1, c2] }).2.2.2.2.2.2.2.2.1
          rw [this] at ihdl
          omega

theorem postBlind_getPlayer_self (i : ℕ) (amt : ℤ) (s : GameState)
    (h : i < s.players.length) :
    getPlayer (postBlind i amt s) i =
      { getPlayer s i with bet := min amt (getPlayer s i).chips,
                           chips := (getPlayer s i).chips - min amt (getPlayer s i).chips } := by
  unfold postBlind getPlayer
  exact getD_set_self _ _ _ _ h

theorem postBlind_getPlayer_ne {i j : ℕ} (amt : ℤ) (s : GameState) (h : i ≠ j) :
    getPlayer (postBlind i amt s) j = getPlayer s j := by
  unfold postBlind getPlayer
  exact getD_set_ne _ _ _ h

theorem postBlind_proj (i : ℕ) (amt : ℤ) (s : GameState) :
    (postBlind i amt s).mainPot = s.mainPot + min amt (getPlayer s i).chips ∧
    (postBlind i amt s).players.length = s.players.length ∧
    (postBlind i amt s).currentBet = s.currentBet ∧
    (postBlind i amt s).dealerIndex = s.dealerIndex ∧
    (postBlind i amt s).deck = s.deck ∧
    (postBlind i amt s).minBet = s.minBet ∧
    (postBlind i amt s).stage = s.stage ∧
    (postBlind i amt s).roundOver = s.roundOver ∧
    (postBlind i amt s).communityCards = s.communityCards ∧
    (postBlind i amt s).winners = s.winners := by
  unfold postBlind
  simp

theorem dealHoleCards_proj (s t : GameState) (h : dealHoleCards s = .ok t) :
    t.players.length = s.players.length ∧
    (∀ j, (getPlayer t j).bet = (getPlayer s j).bet ∧
          (getPlayer t j).chips = (getPlayer s j).chips ∧
          (getPlayer t j).folded = (getPlayer s j).folded ∧
          (getPlayer t j).name = (getPlayer s j).name) ∧
    t.mainPot = s.mainPot ∧ t.currentBet = s.currentBet ∧ t.dealerIndex = s.dealerIndex ∧
    t.minBet = s.minBet ∧ t.stage = s.stage ∧ t.roundOver = s.roundOver ∧
    t.winners = s.winners ∧ t.communityCards = s.communityCards ∧
    t.deck.length + 2 * s.players.length = s.deck.length := by
  unfold dealHoleCards at h
  split at h
  · exact absurd h (by simp)
  · rename_i s1 h1
    simp only [Except.ok.injEq] at h
    subst h
    exact dealHoleGo_proj s.players.length 0 s s1 h1

/-- Heads-up `startHand`: the button moves to `d`; the *player after the
button* posts the small blind, the *button itself* posts the big blind
((d+2) mod 2 = d with two players), each capped at that player's chips; the
current bet becomes the big blind and the first actor is the small blind. -/
theorem startHand_spec2 (s : GameState) (deck : List Card) (t : GameState)
    (h2 : s.players.length = 2) (hok : startHand deck s = .ok t)
    (d sb : ℕ) (hd : d = (s.dealerIndex + 1) % 2) (hsb : sb = (d + 1) % 2) :
    t.players.length = 2 ∧
    t.dealerIndex = d ∧
    t.currentPlayerIndex = sb ∧
    t.currentBet = BIG_BLIND ∧ t.minBet = s.minBet ∧ t.stage = .preflop ∧
    t.roundOver = false ∧ t.winners = [] ∧ t.communityCards = [] ∧
    t.deck.length + 4 = deck.length ∧
    (∀ j, (getPlayer t j).folded = false) ∧
    (getPlayer t sb).bet = min SMALL_BLIND (getPlayer s sb).chips ∧
    (getPlayer t sb).chips = (getPlayer s sb).chips - min SMALL_BLIND (getPlayer s sb).chips ∧
    (getPlayer t d).bet = min BIG_BLIND (getPlayer s d).chips ∧
    (getPlayer t d).chips = (getPlayer s d).chips - min BIG_BLIND (getPlayer s d).chips ∧
    t.mainPot = min SMALL_BLIND (getPlayer s sb).chips + min BIG_BLIND (getPlayer s d).chips := by
  have hdlt : d < 2 := by omega
  have hsblt : sb < 2 := by omega
  have hne : sb ≠ d := by omega
  unfold startHand at hok
  simp only [List.length_map, h2] at hok
  have hbb : (d + 2) % 2 = d := by omega
  rw [← hd, hbb, ← hsb] at hok
  split at hok
  · exact absurd hok (by simp)
  · rename_i s5 h5
    simp only [Except.ok.injEq] at hok
    subst hok
    set s0d : GameState :=
      { deck := deck
        players := s.players.map (fun p =>
          { p with bet := 0, folded := false, holeCards := [], handEvaluation := none })
        communityCards := [], stage := .preflop, currentPlayerIndex := s.currentPlayerIndex
        dealerIndex := d, mainPot := 0, minBet := s.minBet, currentBet := 0, winners := []
        roundOver := false, log := ["New hand started"] } with hs0d
    set sY : GameState := postBlind d BIG_BLIND (postBlind sb SMALL_BLIND s0d) with hsY
    obtain ⟨pl, pfields, ppot, pcb, pdi, pmb, pst, pro, pw, pcc, pdk⟩ :=
      dealHoleCards_proj _ _ h5
    simp only at pl pfields ppot pcb pdi pmb pst pro pw pcc pdk
    have hs0len : s0d.players.length = 2 := by
      rw [hs0d]
      simp [h2]
    have hgp0 : ∀ j, j < 2 → getPlayer s0d j =
        { getPlayer s j with bet := 0, folded := false, holeCards := [],
                             handEvaluation := none } := by
      intro j hj
      unfold getPlayer
      rw [hs0d]
      exact getD_map_lt _ _ _ defaultPlayer _ (by omega)
    have hgp0big : ∀ j, 2 ≤ j → getPlayer s0d j = defaultPlayer := by
      intro j hj
      unfold getPlayer
      rw [hs0d]
      apply getD_of_length_le
      simp [h2]
      omega
    obtain ⟨q1, q2, q3, q4, q5, q6, q7, q8, q9, q10⟩ := postBlind_proj sb SMALL_BLIND s0d
    obtain ⟨r1, r2, r3, r4, r5, r6, r7, r8, r9, r10⟩ :=
      postBlind_proj d BIG_BLIND (postBlind sb SMALL_BLIND s0d)
    have hsbE : getPlayer (postBlind sb SMALL_BLIND s0d) sb =
        { getPlayer s0d sb with
            bet := min SMALL_BLIND (getPlayer s0d sb).chips,
            chips := (getPlayer s0d sb).chips - min SMALL_BLIND (getPlayer s0d sb).chips } :=
      postBlind_getPlayer_self sb SMALL_BLIND _ (by omega)
    have hsb_d : getPlayer (postBlind sb SMALL_BLIND s0d) d = getPlayer s0d d :=
      postBlind_getPlayer_ne _ _ hne
    have hbbE : getPlayer sY d =
        { getPlayer s0d d with
            bet := min BIG_BLIND (getPlayer s0d d).chips,
            chips := (getPlayer s0d d).chips - min BIG_BLIND (getPlayer s0d d).chips } := by
      rw [hsY, postBlind_getPlayer_self d BIG_BLIND _ (by rw [q2]; omega), hsb_d]
    have hsbE2 : getPlayer sY sb =
        { getPlayer s0d sb with
            bet := min SMALL_BLIND (getPlayer s0d sb).chips,
            chips := (getPlayer s0d sb).chips - min SMALL_BLIND (getPlayer s0d sb).chips } := by
      rw [hsY, postBlind_getPlayer_ne _ _ (Ne.symm hne), hsbE]
    have hchips_sb : (getPlayer s0d sb).chips = (getPlayer s sb).chips := by
      rw [hgp0 sb hsblt]
    have hchips_d : (getPlayer s0d d).chips = (getPlayer s d).chips := by
      rw [hgp0 d hdlt]
    have hsbBet : (getPlayer sY sb).bet = min SMALL_BLIND (getPlayer s sb).chips := by
      rw [hsbE2, hchips_sb]
    have hsbChips : (getPlayer sY sb).chips
        = (getPlayer s sb).chips - min SMALL_BLIND (getPlayer s sb).chips := by
      rw [hsbE2]
      show (getPlayer s0d sb).chips - _ ⊓ (getPlayer s0d sb).chips = _
      rw [hchips_sb]
    have hdBet : (getPlayer sY d).bet = min BIG_BLIND (getPlayer s d).chips := by
      rw [hbbE, hchips_d]
    have hdChips : (getPlayer sY d).chips
        = (getPlayer s d).chips - min BIG_BLIND (getPlayer s d).chips := by
      rw [hbbE]
      show (getPlayer s0d d).chips - _ ⊓ (getPlayer s0d d).chips = _
      rw [hchips_d]
    have hsbFold : (getPlayer sY sb).folded = (getPlayer s0d sb).folded := by
      rw [hsbE2]
    have hdFold : (getPlayer sY d).folded = (getPlayer s0d d).folded := by
      rw [hbbE]
    have hYlen : sY.players.length = 2 := by
      rw [hsY, r2, q2, hs0len]
    have hfold : ∀ j, (getPlayer sY j).folded = false := by
      intro j
      by_cases hjd : j = d
      · subst hjd
        rw [hdFold, hgp0 j hdlt]
      by_cases hjsb : j = sb
      · subst hjsb
        rw [hsbFold, hgp0 j hsblt]
      by_cases hj2 : j < 2
      · omega
      · rw [hsY, postBlind_getPlayer_ne _ _ (fun hh => hjd hh.symm),
          postBlind_getPlayer_ne _ _ (fun hh => hjsb hh.symm), hgp0big j (by omega)]
        rfl
    have hp2 : sY.mainPot =
        min SMALL_BLIND (getPlayer s sb).chips + min BIG_BLIND (getPlayer s d).chips := by
      rw [hsY, r1, hsb_d, q1, hchips_sb, hchips_d]
      have hm0 : s0d.mainPot = 0 := by rw [hs0d]
      rw [hm0]
      ring
    refine ⟨?_, ?_, rfl, pcb, ?_, pst, pro, pw, pcc, ?_, ?_, ?_, ?_, ?_, ?_, ?_⟩
    · show s5.players.length = 2
      rw [pl]
      exact hYlen
    · show s5.dealerIndex = d
      rw [pdi, hsY, r4, q4, hs0d]
    · show s5.minBet = s.minBet
      rw [pmb, hsY, r6, q6, hs0d]
    · show s5.deck.length + 4 = deck.length
      have hYdeck : sY.deck = deck := by
        rw [hsY, r5, q5, hs0d]
      rw [hYlen] at pdk
      rw [hYdeck] at pdk
      omega
    · intro j
      show (getPlayer s5 j).folded = false
      rw [(pfields j).2.2.1]
      exact hfold j
    · show (getPlayer s5 sb).bet = _
      rw [(pfields sb).1]
      exact hsbBet
    · show (getPlayer s5 sb).chips = _
      rw [(pfields sb).2.1]
      exact hsbChips
    · show (getPlayer s5 d).bet = _
      rw [(pfields d).1]
      exact hdBet
    · show (getPlayer s5 d).chips = _
      rw [(pfields d).2.1]
      exact hdChips
    · show s5.mainPot = _
      rw [ppot]
      exact hp2

/-- C5 counterexample: on the constructor state (chips 1000/1000), the hand
rotates the button to player 0, and player 0 — the dealer — posts the BIG
blind (10) while the other player posts the small blind (5); the claim says
the dealer posts the small blind. -/
theorem c5_dealer_posts_big_blind :
    (match startHand stdDeck initState with
     | .ok t => some (t.dealerIndex, (getPlayer t 0).bet, (getPlayer t 1).bet)
     | .error _ => none) = some (0, BIG_BLIND, SMALL_BLIND) ∧
    SMALL_BLIND ≠ BIG_BLIND := by
  constructor <;> decide

/-- C5 (amended): in a two-player hand, `startHand` posts the small blind
from the player *after* the dealer and the big blind from the dealer
((d+2) mod 2 = d), each capped at the posting player's chips, and seats the
first actor after the big blind. -/
theorem c5_blinds_amended (s : GameState) (deck : List Card) (t : GameState)
    (h2 : s.players.length = 2) (hok : startHand deck s = .ok t) :
    (getPlayer t ((t.dealerIndex + 1) % 2)).bet
        = min SMALL_BLIND (getPlayer s ((t.dealerIndex + 1) % 2)).chips ∧
    (getPlayer t t.dealerIndex).bet = min BIG_BLIND (getPlayer s t.dealerIndex).chips ∧
    t.currentBet = BIG_BLIND ∧
    t.currentPlayerIndex = ((t.dealerIndex + 2) % 2 + 1) % 2 := by
  obtain ⟨hl, hdi, hcp, hcb, _, _, _, _, _, _, _, hsbB, _, hdB, _, _⟩ :=
    startHand_spec2 s deck t h2 hok ((s.dealerIndex + 1) % 2) (((s.dealerIndex + 1) % 2 + 1) % 2)
      rfl rfl
  have hdlt : t.dealerIndex < 2 := by omega
  refine ⟨?_, ?_, hcb, ?_⟩
  · rw [hdi]
    exact hsbB
  · rw [hdi]
    exact hdB
  · rw [hcp, hdi]
    omega

/-- Witness for C5's amended theorem at the constructor state. -/
theorem c5_blinds_amended_witness :
    (getPlayer startHandEx ((startHandEx.dealerIndex + 1) % 2)).bet
        = min SMALL_BLIND (getPlayer initState ((startHandEx.dealerIndex + 1) % 2)).chips ∧
    (getPlayer startHandEx startHandEx.dealerIndex).bet
        = min BIG_BLIND (getPlayer initState startHandEx.dealerIndex).chips ∧
    startHandEx.currentBet = BIG_BLIND ∧
    startHandEx.currentPlayerIndex = ((startHandEx.dealerIndex + 2) % 2 + 1) % 2 :=
  c5_blinds_amended initState stdDeck startHandEx (by decide) (by rfl)

/-- C10: after the raise branch, the table's current bet equals the acting
player's new total stage bet, unconditionally; when the raiser's chips cannot
cover the intended total this makes the current bet strictly lower than
before the raise and lower than the opponent's already-posted bet. -/
theorem c10_raise_sets_current_bet :
    (∀ (s : GameState) (amount : ℤ), s.currentPlayerIndex < s.players.length →
      (applyRaise amount s).currentBet
        = (getPlayer (applyRaise amount s) s.currentPlayerIndex).bet ∧
      applyActionCore .raise amount s = .ok (applyRaise amount s)) ∧
    (applyRaise 10 exRaiseState).currentBet = 30 ∧
    (applyRaise 10 exRaiseState).currentBet < exRaiseState.currentBet ∧
    (applyRaise 10 exRaiseState).currentBet < (getPlayer exRaiseState 1).bet := by
  refine ⟨fun s amount h => ⟨?_, rfl⟩, by decide, by decide, by decide⟩
  unfold applyRaise getPlayer
  simp only
  rw [getD_set_self _ _ _ _ h]

/-- Witness for C10's universal part at the concrete short-stack state. -/
theorem c10_raise_sets_current_bet_witness :
    (applyRaise 10 exRaiseState).currentBet
      = (getPlayer (applyRaise 10 exRaiseState) exRaiseState.currentPlayerIndex).bet ∧
    applyActionCore .raise 10 exRaiseState = .ok (applyRaise 10 exRaiseState) :=
  c10_raise_sets_current_bet.1 exRaiseState 10 (by decide)

/-! ## Success of the post-action cascade -/

theorem getPlayer_set_holeCards (s : GameState) (i j : ℕ) (p : Player)
    (hh : p.holeCards = (getPlayer s i).holeCards) :
    (getPlayer (setPlayer s i p) j).holeCards = (getPlayer s j).holeCards := by
  by_cases hij : i = j
  · subst hij
    by_cases hlt : i < s.players.length
    · unfold getPlayer setPlayer
      rw [getD_set_self _ _ _ _ (by simpa using hlt)]
      exact hh
    · unfold getPlayer setPlayer
      simp only
      rw [List.set_eq_of_length_le (by omega)]
  · unfold getPlayer setPlayer
    rw [getD_set_ne _ _ _ hij]

theorem drawCard_succ (s : GameState) (h : s.deck ≠ []) :
    ∃ c t, drawCard s = .ok (c, t) := by
  unfold drawCard
  cases hl : s.deck.getLast? with
  | none => exact absurd (List.getLast?_eq_none_iff.mp hl) h
  | some c => exact ⟨c, _, rfl⟩

theorem deck_ne_nil_of_le {s : GameState} {n : ℕ} (h : n + 1 ≤ s.deck.length) :
    s.deck ≠ [] := by
  intro hnil
  rw [hnil] at h
  simp at h

theorem dealFlop_succ (s : GameState) (h : 4 ≤ s.deck.length) : ∃ t, dealFlop s = .ok t := by
  obtain ⟨c1, s1, h1⟩ := drawCard_succ s (deck_ne_nil_of_le (show 3 + 1 ≤ s.deck.length by omega))
  have l1 : s1.deck.length + 1 = s.deck.length := by
    rw [(drawCard_ok h1).2.2.2.2.2.2.2.2.2.2.1, List.length_dropLast]
    omega
  obtain ⟨c2, s2, h2⟩ := drawCard_succ s1 (deck_ne_nil_of_le (show 0 + 1 ≤ s1.deck.length by omega))
  have l2 : s2.deck.length + 1 = s1.deck.length := by
    rw [(drawCard_ok h2).2.2.2.2.2.2.2.2.2.2.1, List.length_dropLast]
    omega
  obtain ⟨c3, s3, h3⟩ := drawCard_succ s2 (deck_ne_nil_of_le (show 0 + 1 ≤ s2.deck.length by omega))
  have l3 : s3.deck.length + 1 = s2.deck.length := by
    rw [(drawCard_ok h3).2.2.2.2.2.2.2.2.2.2.1, List.length_dropLast]
    omega
  obtain ⟨c4, s4, h4⟩ := drawCard_succ s3 (deck_ne_nil_of_le (show 0 + 1 ≤ s3.deck.length by omega))
  unfold dealFlop
  simp only [h1, h2, h3, h4]
  exact ⟨_, rfl⟩

theorem dealTurn_succ (s : GameState) (h : 2 ≤ s.deck.length) : ∃ t, dealTurn s = .ok t := by
  obtain ⟨c1, s1, h1⟩ := drawCard_succ s (deck_ne_nil_of_le (show 1 + 1 ≤ s.deck.length by omega))
  have l1 : s1.deck.length + 1 = s.deck.length := by
    rw [(drawCard_ok h1).2.2.2.2.2.2.2.2.2.2.1, List.length_dropLast]
    omega
  obtain ⟨c2, s2, h2⟩ := drawCard_succ s1 (deck_ne_nil_of_le (show 0 + 1 ≤ s1.deck.length by omega))
  unfold dealTurn
  simp only [h1, h2]
  exact ⟨_, rfl⟩

theorem dealRiver_succ (s : GameState) (h : 2 ≤ s.deck.length) : ∃ t, dealRiver s = .ok t := by
  obtain ⟨c1, s1, h1⟩ := drawCard_succ s (deck_ne_nil_of_le (show 1 + 1 ≤ s.deck.length by omega))
  have l1 : s1.deck.length + 1 = s.deck.length := by
    rw [(drawCard_ok h1).2.2.2.2.2.2.2.2.2.2.1, List.length_dropLast]
    omega
  obtain ⟨c2, s2, h2⟩ := drawCard_succ s1 (deck_ne_nil_of_le (show 0 + 1 ≤ s1.deck.length by omega))
  unfold dealRiver
  simp only [h1, h2]
  exact ⟨_, rfl⟩

theorem evalActives_succ : ∀ (l : List ℕ) (s : GameState),
    (∀ i ∈ l, 5 ≤ (getPlayer s i).holeCards.length + s.communityCards.length) →
    ∃ t, evalActives l s = .ok t := by
  intro l
  induction l with
  | nil => exact fun s _ => ⟨s, rfl⟩
  | cons i is ih =>
    intro s h
    have hlen : ¬ ((getPlayer s i).holeCards ++ s.communityCards).length < 5 := by
      rw [List.length_append]
      have := h i (by simp)
      omega
    have hev : ∃ ev, evaluateHandZ ((getPlayer s i).holeCards ++ s.communityCards) = .ok ev := by
      unfold evaluateHandZ
      rw [if_neg hlen]
      exact ⟨_, rfl⟩
    obtain ⟨ev, hev⟩ := hev
    have hnext := ih (setPlayer s i { getPlayer s i with handEvaluation := some ev })
      (fun j hj => by
        rw [getPlayer_set_holeCards s i j { getPlayer s i with handEvaluation := some ev } rfl]
        have : (setPlayer s i { getPlayer s i with handEvaluation := some ev }).communityCards
            = s.communityCards := rfl
        rw [this]
        exact h j (by simp [hj]))
    obtain ⟨t, ht⟩ := hnext
    refine ⟨t, ?_⟩
    unfold evalActives
    rw [hev]
    exact ht

theorem showdown_succ (s : GameState)
    (h : ∀ i ∈ activeIndices s, 5 ≤ (getPlayer s i).holeCards.length + s.communityCards.length) :
    ∃ t, showdown s = .ok t := by
  have hsame : activeIndices { s with stage := GameStage.showdown } = activeIndices s := rfl
  obtain ⟨t2, ht2⟩ := evalActives_succ (activeIndices s) { s with stage := GameStage.showdown }
    (fun i hi => h i hi)
  unfold showdown
  simp only [hsame, ht2]
  exact ⟨_, rfl⟩

theorem moveToNextStage_succ (s : GameState) (h4 : 4 ≤ s.deck.length)
    (hriver : s.stage = .river → ∀ i ∈ activeIndices s,
      5 ≤ (getPlayer s i).holeCards.length + s.communityCards.length) :
    ∃ t, moveToNextStage s = .ok t := by
  unfold moveToNextStage
  cases hst : s.stage with
  | preflop =>
    obtain ⟨t, ht⟩ := dealFlop_succ s h4
    exact ⟨_, by rw [ht]⟩
  | flop =>
    obtain ⟨t, ht⟩ := dealTurn_succ s (by omega)
    exact ⟨_, by rw [ht]⟩
  | turn =>
    obtain ⟨t, ht⟩ := dealRiver_succ s (by omega)
    exact ⟨_, by rw [ht]⟩
  | river =>
    obtain ⟨t, ht⟩ := showdown_succ s (hriver hst)
    exact ⟨_, by rw [ht]⟩
  | showdown => exact ⟨_, rfl⟩

theorem checkBettingRoundComplete_succ (s : GameState) (h4 : 4 ≤ s.deck.length)
    (hriver : s.stage = .river → ∀ i ∈ activeIndices s,
      5 ≤ (getPlayer s i).holeCards.length + s.communityCards.length) :
    ∃ t, checkBettingRoundComplete s = .ok t := by
  unfold checkBettingRoundComplete
  by_cases h1 : (activeIndices s).length = 1
  · rw [if_pos h1]
    exact ⟨_, rfl⟩
  · rw [if_neg h1]
    by_cases h2 : (activeIndices s).all (fun i =>
        ((getPlayer s i).bet == s.currentBet) || ((getPlayer s i).chips == 0))
    · rw [if_pos h2]
      exact moveToNextStage_succ s h4 hriver
    · rw [if_neg h2]
      exact ⟨_, rfl⟩

/-- C7: with a call owed (actor's stage bet below the table bet), `check`
fails with the dedicated error before any mutation — the embedding returns
no new state, matching the source's throw-before-assignment, so the caller's
state is unchanged; with the bet matched, `check` succeeds (given a deck and
showdown evaluable, which every real hand provides). -/
theorem c7_check_legality (s : GameState) :
    ((getPlayer s s.currentPlayerIndex).bet < s.currentBet →
      playerAction .check 0 s = .error .illegalCheck) ∧
    ((getPlayer s s.currentPlayerIndex).bet = s.currentBet →
     4 ≤ s.deck.length →
     (s.stage = .river → ∀ i ∈ activeIndices s,
        5 ≤ (getPlayer s i).holeCards.length + s.communityCards.length) →
     ∃ t, playerAction .check 0 s = .ok t) := by
  constructor
  · intro h
    unfold playerAction applyActionCore
    rw [if_pos h]
  · intro heq h4 hriver
    unfold playerAction applyActionCore
    rw [if_neg (by omega)]
    exact checkBettingRoundComplete_succ _ (by exact h4) (by exact hriver)

/-- Witness for C7: a concrete owed-call state rejects `check`; the
constructor state (no bet owed) accepts it. -/
theorem c7_check_legality_witness :
    playerAction .check 0 exRaiseState = .error .illegalCheck ∧
    ∃ t, playerAction .check 0 initState = .ok t :=
  ⟨(c7_check_legality exRaiseState).1 (by decide),
   (c7_check_legality initState).2 (by decide) (by decide) (by decide)⟩

theorem betSum_nonneg {s : GameState} (h : ∀ p ∈ s.players, 0 ≤ p.bet) : 0 ≤ betSum s := by
  apply List.sum_nonneg
  intro x hx
  obtain ⟨p, hp, rfl⟩ := List.mem_map.mp hx
  exact h p hp

theorem HandInv.potNonneg {T : ℤ} {s : GameState} (h : HandInv T s) : 0 ≤ s.mainPot := by
  cases hro : s.roundOver with
  | false => exact le_trans (betSum_nonneg h.betsNonneg) (h.potGeBets hro)
  | true => exact le_of_eq (h.potZeroAtEnd hro).symm

theorem stageDeckBound_ge {s : GameState} (h : stageDeckBound s) : 40 ≤ s.deck.length := by
  unfold stageDeckBound at h
  cases hst : s.stage <;> rw [hst] at h <;> omega

theorem nextPlayerIdxGo_lt (ps : List Player) (start : ℕ) (fuel i : ℕ)
    (h : i < ps.length) : nextPlayerIdxGo ps start fuel i < ps.length := by
  induction fuel generalizing i with
  | zero => exact h
  | succ n ih =>
    unfold nextPlayerIdxGo
    by_cases h1 : i = start
    · rw [if_pos h1]; exact h
    · rw [if_neg h1]
      by_cases h2 : (ps.getD i defaultPlayer).folded || ((ps.getD i defaultPlayer).chips == 0)
      · rw [if_pos h2]
        exact ih _ (Nat.mod_lt _ (by omega))
      · rw [if_neg h2]; exact h

theorem nextPlayerIdx_lt (ps : List Player) (start : ℕ) (h0 : 0 < ps.length) :
    nextPlayerIdx ps start < ps.length :=
  nextPlayerIdxGo_lt ps start ps.length _ (Nat.mod_lt _ h0)

theorem resetIdxGo_lt (ps : List Player) (first : ℕ) (fuel i : ℕ)
    (h : i < ps.length) (h0 : 0 < ps.length) : resetIdxGo ps first fuel i < ps.length := by
  induction fuel generalizing i with
  | zero => exact h
  | succ n ih =>
    unfold resetIdxGo
    by_cases h2 : (ps.getD i defaultPlayer).folded || ((ps.getD i defaultPlayer).chips == 0)
    · rw [if_pos h2]
      by_cases h3 : (i + 1) % ps.length = first
      · rw [if_pos h3]; exact Nat.mod_lt _ h0
      · rw [if_neg h3]
        exact ih _ (Nat.mod_lt _ h0)
    · rw [if_neg h2]; exact h

theorem activeIndices_sub (s : GameState) : ∀ j ∈ activeIndices s, j < s.players.length := by
  intro j hj
  unfold activeIndices at hj
  exact List.mem_range.mp (List.mem_filter.mp hj).1

theorem activeIndices_nodup (s : GameState) : (activeIndices s).Nodup :=
  (List.nodup_range _).filter _

theorem activeIndices_len_le (s : GameState) :
    (activeIndices s).length ≤ s.players.length := by
  calc (activeIndices s).length ≤ (List.range s.players.length).length :=
        List.length_filter_le _ _
    _ = s.players.length := List.length_range _

theorem mem_activeIndices (s : GameState) (j : ℕ) :
    j ∈ activeIndices s ↔ j < s.players.length ∧ (getPlayer s j).folded = false := by
  unfold activeIndices
  rw [List.mem_filter, List.mem_range]
  simp

/-- Two states with the same fold pattern have the same active list. -/
theorem activeIndices_congr {s s' : GameState} (hl : s'.players.length = s.players.length)
    (hf : ∀ j, (getPlayer s' j).folded = (getPlayer s j).folded) :
    activeIndices s' = activeIndices s := by
  unfold activeIndices
  rw [hl]
  apply List.filter_congr
  intro j hj
  rw [hf j]

theorem activeIndices_all_unfolded {s : GameState}
    (hf : ∀ j, j < s.players.length → (getPlayer s j).folded = false) :
    (activeIndices s).length = s.players.length := by
  unfold activeIndices
  rw [List.filter_eq_self.mpr, List.length_range]
  intro j hj
  rw [List.mem_range] at hj
  simp [hf j hj]

/-! ## awardPot accounting -/

theorem addChips_scalars (per : ℤ) (st : GameState) (i : ℕ) :
    (addChips per st i).mainPot = st.mainPot ∧ (addChips per st i).currentBet = st.currentBet ∧
    (addChips per st i).stage = st.stage ∧ (addChips per st i).roundOver = st.roundOver ∧
    (addChips per st i).deck = st.deck ∧ (addChips per st i).winners = st.winners ∧
    (addChips per st i).dealerIndex = st.dealerIndex ∧ (addChips per st i).minBet = st.minBet ∧
    (addChips per st i).currentPlayerIndex = st.currentPlayerIndex ∧
    (addChips per st i).communityCards = st.communityCards ∧
    (addChips per st i).players.length = st.players.length :=
  ⟨rfl, rfl, rfl, rfl, rfl, rfl, rfl, rfl, rfl, rfl, by simp [addChips, setPlayer]⟩

theorem addChips_getPlayer (per : ℤ) (st : GameState) (i j : ℕ)
    (hi : i < st.players.length) :
    getPlayer (addChips per st i) j =
      (if i = j then { getPlayer st j with chips := (getPlayer st j).chips + per }
       else getPlayer st j) := by
  by_cases hij : i = j
  · subst hij
    rw [if_pos rfl]
    unfold addChips getPlayer setPlayer
    rw [getD_set_self _ _ _ _ (by simpa using hi)]
  · rw [if_neg hij]
    unfold addChips getPlayer setPlayer
    rw [getD_set_ne _ _ _ hij]

theorem addChips_chipSum (per : ℤ) (st : GameState) (i : ℕ) (hi : i < st.players.length) :
    chipSum (addChips per st i) = chipSum st + per := by
  unfold addChips setPlayer chipSum
  simp only
  rw [sum_map_set _ _ _ _ hi]
  unfold getPlayer
  ring

theorem foldAddChips_facts (per : ℤ) : ∀ (ws : List ℕ) (st : GameState),
    (∀ i ∈ ws, i < st.players.length) →
    chipSum (ws.foldl (addChips per) st) = chipSum st + per * ws.length ∧
    (ws.foldl (addChips per) st).players.length = st.players.length ∧
    (ws.foldl (addChips per) st).mainPot = st.mainPot ∧
    (∀ j, (getPlayer (ws.foldl (addChips per) st) j).chips
        = (getPlayer st j).chips + per * (ws.count j)) ∧
    (∀ j, (getPlayer (ws.foldl (addChips per) st) j).bet = (getPlayer st j).bet ∧
          (getPlayer (ws.foldl (addChips per) st) j).folded = (getPlayer st j).folded ∧
          (getPlayer (ws.foldl (addChips per) st) j).handEvaluation
            = (getPlayer st j).handEvaluation) ∧
    (ws.foldl (addChips per) st).currentBet = st.currentBet ∧
    (ws.foldl (addChips per) st).stage = st.stage ∧
    (ws.foldl (addChips per) st).roundOver = st.roundOver ∧
    (ws.foldl (addChips per) st).deck = st.deck ∧
    (ws.foldl (addChips per) st).winners = st.winners ∧
    (ws.foldl (addChips per) st).dealerIndex = st.dealerIndex ∧
    (ws.foldl (addChips per) st).minBet = st.minBet ∧
    (ws.foldl (addChips per) st).currentPlayerIndex = st.currentPlayerIndex ∧
    (ws.foldl (addChips per) st).communityCards = st.communityCards := by
  intro ws
  induction ws with
  | nil =>
    intro st _
    refine ⟨by simp, rfl, rfl, fun j => by simp, fun j => ⟨rfl, rfl, rfl⟩, rfl, rfl, rfl, rfl,
      rfl, rfl, rfl, rfl, rfl⟩
  | cons i is ih =>
    intro st hval
    have hi : i < st.players.length := hval i (by simp)
    have hlen : (addChips per st i).players.length = st.players.length :=
      (addChips_scalars per st i).2.2.2.2.2.2.2.2.2.2
    obtain ⟨c1, c2, c3, c4, c5, c6, c7, c8, c9, c10, c11, c12, c13, c14⟩ :=
      ih (addChips per st i) (fun j hj => by rw [hlen]; exact hval j (by simp [hj]))
    have hstep := addChips_getPlayer per st i
    refine ⟨?_, by rw [List.foldl_cons, c2, hlen], ?_, ?_, ?_, ?_, ?_, ?_, ?_, ?_, ?_, ?_, ?_, ?_⟩
    · rw [List.foldl_cons, c1, addChips_chipSum per st i hi]
      simp only [List.length_cons]
      push_cast
      ring
    · rw [List.foldl_cons, c3, (addChips_scalars per st i).1]
    · intro j
      rw [List.foldl_cons, c4 j, hstep j hi]
      by_cases hij : i = j
      · subst hij
        rw [if_pos rfl]
        simp only [List.count_cons_self]
        push_cast
        ring
      · rw [if_neg hij]
        rw [List.count_cons_of_ne (fun hh => hij hh.symm)]
    · intro j
      obtain ⟨b1, b2, b3⟩ := c5 j
      rw [List.foldl_cons] at *
      rw [b1, b2, b3, hstep j hi]
      by_cases hij : i = j
      · subst hij
        rw [if_pos rfl]
        exact ⟨rfl, rfl, rfl⟩
      · rw [if_neg hij]
        exact ⟨rfl, rfl, rfl⟩
    · rw [List.foldl_cons, c6, (addChips_scalars per st i).2.1]
    · rw [List.foldl_cons, c7, (addChips_scalars per st i).2.2.1]
    · rw [List.foldl_cons, c8, (addChips_scalars per st i).2.2.2.1]
    · rw [List.foldl_cons, c9, (addChips_scalars per st i).2.2.2.2.1]
    · rw [List.foldl_cons, c10, (addChips_scalars per st i).2.2.2.2.2.1]
    · rw [List.foldl_cons, c11, (addChips_scalars per st i).2.2.2.2.2.2.1]
    · rw [List.foldl_cons, c12, (addChips_scalars per st i).2.2.2.2.2.2.2.1]
    · rw [List.foldl_cons, c13, (addChips_scalars per st i).2.2.2.2.2.2.2.2.1]
    · rw [List.foldl_cons, c14, (addChips_scalars per st i).2.2.2.2.2.2.2.2.2.1]

theorem awardPot_spec (ws : List ℕ) (s : GameState) (hne : ws ≠ [])
    (hval : ∀ i ∈ ws, i < s.players.length) (hpot : 0 ≤ s.mainPot) :
    (awardPot ws s).mainPot = 0 ∧
    chipSum (awardPot ws s) = chipSum s + s.mainPot ∧
    (awardPot ws s).players.length = s.players.length ∧
    (∀ j, (getPlayer s j).chips ≤ (getPlayer (awardPot ws s) j).chips) ∧
    (∀ j, (getPlayer (awardPot ws s) j).bet = (getPlayer s j).bet ∧
          (getPlayer (awardPot ws s) j).folded = (getPlayer s j).folded) ∧
    (awardPot ws s).currentBet = s.currentBet ∧
    (awardPot ws s).stage = s.stage ∧
    (awardPot ws s).roundOver = s.roundOver ∧
    (awardPot ws s).deck = s.deck ∧
    (awardPot ws s).dealerIndex = s.dealerIndex ∧
    (awardPot ws s).minBet = s.minBet ∧
    (awardPot ws s).currentPlayerIndex = s.currentPlayerIndex ∧
    (awardPot ws s).communityCards = s.communityCards := by
  have hn : 0 < ws.length := List.length_pos.mpr hne
  have hnz : (0 : ℤ) < (ws.length : ℤ) := by exact_mod_cast hn
  have hperNonneg : 0 ≤ s.mainPot.fdiv (ws.length : ℤ) := Int.fdiv_nonneg hpot (le_of_lt hnz)
  have hremNonneg : 0 ≤ s.mainPot.fmod (ws.length : ℤ) := Int.fmod_nonneg hpot (le_of_lt hnz)
  have hdm : (ws.length : ℤ) * s.mainPot.fdiv (ws.length : ℤ)
      + s.mainPot.fmod (ws.length : ℤ) = s.mainPot := Int.fdiv_add_fmod _ _
  obtain ⟨f1, f2, f3, f4, f5, f6, f7, f8, f9, f10, f11, f12, f13, f14⟩ :=
    foldAddChips_facts (s.mainPot.fdiv (ws.length : ℤ)) ws s hval
  have hhead : ws.headD 0 < s.players.length := hval _ (by
    cases ws with
    | nil => exact absurd rfl hne
    | cons a l => simp)
  have hheadlen : ws.headD 0 < (ws.foldl (addChips (s.mainPot.fdiv (ws.length : ℤ))) s).players.length := by
    rw [f2]; exact hhead
  unfold awardPot
  rw [if_neg (by simpa using hne)]
  dsimp only
  by_cases hrem : 0 < s.mainPot.fmod (ws.length : ℤ)
  · rw [if_pos hrem]
    refine ⟨rfl, ?_, ?_, ?_, ?_, ?_, ?_, ?_, ?_, ?_, ?_, ?_, ?_⟩
    · show chipSum (addChips _ _ _) = _
      rw [addChips_chipSum _ _ _ hheadlen, f1]
      linarith [hdm]
    · show (addChips _ _ _).players.length = _
      rw [(addChips_scalars _ _ _).2.2.2.2.2.2.2.2.2.2, f2]
    · intro j
      show (getPlayer s j).chips ≤ (getPlayer (addChips _ _ _) j).chips
      rw [addChips_getPlayer _ _ _ _ hheadlen]
      by_cases hij : ws.headD 0 = j
      · rw [if_pos hij, ]
        simp only
        rw [f4 j]
        have : 0 ≤ s.mainPot.fdiv (ws.length : ℤ) * (ws.count j : ℤ) := by positivity
        linarith
      · rw [if_neg hij, f4 j]
        have : 0 ≤ s.mainPot.fdiv (ws.length : ℤ) * (ws.count j : ℤ) := by positivity
        linarith
    · intro j
      show ((getPlayer (addChips _ _ _) j).bet = _ ∧ (getPlayer (addChips _ _ _) j).folded = _)
      rw [addChips_getPlayer _ _ _ _ hheadlen]
      by_cases hij : ws.headD 0 = j
      · rw [if_pos hij]
        exact ⟨(f5 j).1, (f5 j).2.1⟩
      · rw [if_neg hij]
        exact ⟨(f5 j).1, (f5 j).2.1⟩
    · show (addChips _ _ _).currentBet = _
      rw [(addChips_scalars _ _ _).2.1, f6]
    · show (addChips _ _ _).stage = _
      rw [(addChips_scalars _ _ _).2.2.1, f7]
    · show (addChips _ _ _).roundOver = _
      rw [(addChips_scalars _ _ _).2.2.2.1, f8]
    · show (addChips _ _ _).deck = _
      rw [(addChips_scalars _ _ _).2.2.2.2.1, f9]
    · show (addChips _ _ _).dealerIndex = _
      rw [(addChips_scalars _ _ _).2.2.2.2.2.2.1, f11]
    · show (addChips _ _ _).minBet = _
      rw [(addChips_scalars _ _ _).2.2.2.2.2.2.2.1, f12]
    · show (addChips _ _ _).currentPlayerIndex = _
      rw [(addChips_scalars _ _ _).2.2.2.2.2.2.2.2.1, f13]
    · show (addChips _ _ _).communityCards = _
      rw [(addChips_scalars _ _ _).2.2.2.2.2.2.2.2.2.1, f14]
  · rw [if_neg hrem]
    have hrem0 : s.mainPot.fmod (ws.length : ℤ) = 0 := le_antisymm (by omega) hremNonneg
    refine ⟨rfl, ?_, f2, ?_, fun j => ⟨(f5 j).1, (f5 j).2.1⟩, f6, f7, f8, f9, f11, f12, f13, f14⟩
    · show chipSum (ws.foldl _ s) = _
      rw [f1]
      rw [hrem0] at hdm
      linarith [hdm]
    · intro j
      show (getPlayer s j).chips ≤
        (getPlayer (ws.foldl (addChips (s.mainPot.fdiv (ws.length : ℤ))) s) j).chips
      rw [f4 j]
      have : 0 ≤ s.mainPot.fdiv (ws.length : ℤ) * (ws.count j : ℤ) := by positivity
      linarith

/-- The first listed winner receives the floor share plus the whole
remainder (`winners[0]`), when the winners are distinct. -/
theorem awardPot_head (ws : List ℕ) (s : GameState) (hne : ws ≠ [])
    (hnd : ws.Nodup) (hval : ∀ i ∈ ws, i < s.players.length) :
    (getPlayer (awardPot ws s) (ws.headD 0)).chips
      = (getPlayer s (ws.headD 0)).chips + s.mainPot.fdiv (ws.length : ℤ)
        + s.mainPot.fmod (ws.length : ℤ) := by
  have hn : 0 < ws.length := List.length_pos.mpr hne
  obtain ⟨f1, f2, f3, f4, f5, f6, f7, f8, f9, f10, f11, f12, f13, f14⟩ :=
    foldAddChips_facts (s.mainPot.fdiv (ws.length : ℤ)) ws s hval
  have hhead : ws.headD 0 < s.players.length := hval _ (by
    cases ws with
    | nil => exact absurd rfl hne
    | cons a l => simp)
  have hheadlen : ws.headD 0 <
      (ws.foldl (addChips (s.mainPot.fdiv (ws.length : ℤ))) s).players.length := by
    rw [f2]; exact hhead
  have hcount : ws.count (ws.headD 0) = 1 := by
    cases ws with
    | nil => exact absurd rfl hne
    | cons a l =>
      simp only [List.headD_cons]
      rw [List.count_cons_self]
      rw [List.count_eq_zero_of_not_mem (List.Nodup.not_mem hnd)]
  unfold awardPot
  rw [if_neg (by simpa using hne)]
  dsimp only
  by_cases hrem : 0 < s.mainPot.fmod (ws.length : ℤ)
  · rw [if_pos hrem]
    show (getPlayer (addChips _ _ _) _).chips = _
    rw [addChips_getPlayer _ _ _ _ hheadlen, if_pos rfl]
    simp only
    rw [f4, hcount]
    push_cast
    ring
  · rw [if_neg hrem]
    have hnz : (0 : ℤ) < (ws.length : ℤ) := by exact_mod_cast hn
    have hremNonneg : 0 ≤ s.mainPot.fmod (ws.length : ℤ) := by
      rcases le_or_lt 0 s.mainPot with hp | hp
      · exact Int.fmod_nonneg hp (le_of_lt hnz)
      · exact Int.fmod_nonneg' _ hnz
    have hrem0 : s.mainPot.fmod (ws.length : ℤ) = 0 := le_antisymm (by omega) hremNonneg
    show (getPlayer (ws.foldl _ s) _).chips = _
    rw [f4, hcount, hrem0]
    push_cast
    ring

/-! ## Showdown: winner selection -/

theorem insertIdxByValue_perm (s : GameState) (i : ℕ) :
    ∀ l : List ℕ, (insertIdxByValue s i l).Perm (i :: l) := by
  intro l
  induction l with
  | nil => exact List.Perm.refl _
  | cons j js ih =>
    unfold insertIdxByValue
    by_cases h : evalValue (getPlayer s j) ≤ evalValue (getPlayer s i)
    · rw [if_pos h]
    · rw [if_neg h]
      exact (List.Perm.cons j ih).trans (List.Perm.swap i j js)

theorem sortIdxByValue_perm (s : GameState) :
    ∀ l : List ℕ, (sortIdxByValue s l).Perm l := by
  intro l
  induction l with
  | nil => exact List.Perm.refl _
  | cons i is ih =>
    unfold sortIdxByValue
    exact (insertIdxByValue_perm s i (sortIdxByValue s is)).trans (List.Perm.cons i ih)

theorem pickStep_fold_append (s : GameState) : ∀ (l : List ℕ) (acc : List ℕ × ℤ),
    ∃ w, (l.foldl (pickStep s) acc).1 = acc.1 ++ w ∧ w.Sublist l := by
  intro l
  induction l with
  | nil => exact fun acc => ⟨[], by simp, List.nil_sublist _⟩
  | cons i is ih =>
    intro acc
    rw [List.foldl_cons]
    obtain ⟨w, hw, hsub⟩ := ih (pickStep s acc i)
    cases hme : (getPlayer s i).handEvaluation with
    | none =>
      have hstep : pickStep s acc i = acc := by
        unfold pickStep
        rw [hme]
      rw [hstep] at hw
      refine ⟨w, ?_, hsub.cons i⟩
      rw [hstep]
      exact hw
    | some ev =>
      by_cases hc : acc.1.isEmpty || (((ev.value : ℤ)) == acc.2)
      · have hstep : pickStep s acc i = (acc.1 ++ [i], (ev.value : ℤ)) := by
          unfold pickStep
          rw [hme]
          simp only [hc, if_true]
        rw [hstep] at hw
        refine ⟨i :: w, ?_, hsub.cons₂ i⟩
        rw [hstep, hw]
        simp
      · have hstep : pickStep s acc i = acc := by
          unfold pickStep
          rw [hme]
          simp [hc]
        rw [hstep] at hw
        refine ⟨w, ?_, hsub.cons i⟩
        rw [hstep]
        exact hw

theorem pickWinners_sublist (s : GameState) (sorted : List ℕ) :
    (pickWinners s sorted).Sublist sorted := by
  obtain ⟨w, hw, hsub⟩ := pickStep_fold_append s sorted ([], -1)
  unfold pickWinners
  rw [hw]
  simpa using hsub

theorem pickWinners_ne_nil (s : GameState) (i : ℕ) (rest : List ℕ)
    (hsome : (getPlayer s i).handEvaluation.isSome) :
    pickWinners s (i :: rest) ≠ [] := by
  unfold pickWinners
  rw [List.foldl_cons]
  cases hme : (getPlayer s i).handEvaluation with
  | none => rw [hme] at hsome; simp at hsome
  | some ev =>
    have hstep : pickStep s ([], -1) i = ([i], (ev.value : ℤ)) := by
      unfold pickStep
      rw [hme]
      simp
    rw [hstep]
    obtain ⟨w, hw, hsub⟩ := pickStep_fold_append s rest ([i], (ev.value : ℤ))
    rw [hw]
    simp

/-! ## Showdown: hand evaluation pass -/

theorem evalActives_proj : ∀ (l : List ℕ) (s t : GameState), evalActives l s = .ok t →
    t.players.length = s.players.length ∧
    (∀ j, (getPlayer t j).bet = (getPlayer s j).bet ∧
          (getPlayer t j).chips = (getPlayer s j).chips ∧
          (getPlayer t j).folded = (getPlayer s j).folded) ∧
    t.mainPot = s.mainPot ∧ t.currentBet = s.currentBet ∧ t.stage = s.stage ∧
    t.roundOver = s.roundOver ∧ t.deck = s.deck ∧ t.dealerIndex = s.dealerIndex ∧
    t.minBet = s.minBet ∧ t.currentPlayerIndex = s.currentPlayerIndex ∧
    t.communityCards = s.communityCards ∧ t.winners = s.winners ∧
    (∀ i ∈ l, i < s.players.length → (getPlayer t i).handEvaluation.isSome) := by
  intro l
  induction l with
  | nil =>
    intro s t h
    unfold evalActives at h
    simp only [Except.ok.injEq] at h
    subst h
    exact ⟨rfl, fun j => ⟨rfl, rfl, rfl⟩, rfl, rfl, rfl, rfl, rfl, rfl, rfl, rfl, rfl, rfl,
      fun i hi => by simp at hi⟩
  | cons i is ih =>
    intro s t h
    unfold evalActives at h
    split at h
    · exact absurd h (by simp)
    · rename_i ev hev
      obtain ⟨g1, g2, g3, g4, g5, g6, g7, g8, g9, g10, g11, g12, g13⟩ := ih _ _ h
      have hset := setPlayer_scalars s i { getPlayer s i with handEvaluation := some ev }
      have hfields := fun j => getPlayer_set_fields s i j
        { getPlayer s i with handEvaluation := some ev } rfl rfl rfl rfl
      have hlen : (setPlayer s i { getPlayer s i with handEvaluation := some ev }).players.length
          = s.players.length := by
        rw [setPlayer_players, List.length_set]
      refine ⟨g1.trans hlen, ?_, g3.trans hset.1, g4.trans hset.2.1, ?_, ?_, ?_, ?_, ?_, ?_,
        ?_, ?_, ?_⟩
      · intro j
        obtain ⟨b1, b2, b3, _⟩ := hfields j
        obtain ⟨a1, a2, a3⟩ := g2 j
        exact ⟨a1.trans b1, a2.trans b2, a3.trans b3⟩
      · exact g5.trans (by rfl)
      · exact g6.trans (by rfl)
      · exact g7.trans hset.2.2.2.2.2.2.2.2.1
      · exact g8.trans hset.2.2.1
      · exact g9.trans hset.2.2.2.1
      · exact g10.trans hset.2.2.2.2.2.2.2.2.2
      · exact g11.trans hset.2.2.2.2.2.2.2.1
      · exact g12.trans hset.2.2.2.2.2.2.1
      · intro k hk hklen
        by_cases hki : k = i
        · subst hki
          -- the evaluation set here survives the rest of the pass or is overwritten by some
          have : ∀ (l2 : List ℕ) (s2 t2 : GameState), evalActives l2 s2 = .ok t2 →
              (getPlayer s2 k).handEvaluation.isSome →
              (getPlayer t2 k).handEvaluation.isSome := by
            intro l2
            induction l2 with
            | nil =>
              intro s2 t2 hh hs
              unfold evalActives at hh
              simp only [Except.ok.injEq] at hh
              subst hh
              exact hs
            | cons a l2t ih2 =>
              intro s2 t2 hh hs
              unfold evalActives at hh
              split at hh
              · exact absurd hh (by simp)
              · rename_i ev2 hev2
                apply ih2 _ _ hh
                by_cases hak : a = k
                · subst hak
                  by_cases halt : a < s2.players.length
                  · unfold getPlayer setPlayer
                    rw [getD_set_self _ _ _ _ (by simpa using halt)]
                    simp
                  · unfold getPlayer setPlayer
                    simp only
                    rw [List.set_eq_of_length_le (by omega)]
                    exact hs
                · unfold getPlayer setPlayer
                  rw [getD_set_ne _ _ _ hak]
                  exact hs
          apply this is _ t h
          by_cases hlt : k < s.players.length
          · unfold getPlayer setPlayer
            rw [getD_set_self _ _ _ _ (by simpa using hlt)]
            simp
          · exact absurd hklen hlt
        · have hk2 : k ∈ is := by
            rcases List.mem_cons.mp hk with h | h
            · exact absurd h hki
            · exact h
          exact g13 k hk2 (by rw [hlen]; exact hklen)

/-! ## Facts about the five action branches -/

theorem applyFold_pack (s : GameState) (hi : s.currentPlayerIndex < s.players.length) :
    chipSum (applyFold s) = chipSum s ∧ betSum (applyFold s) = betSum s ∧
    (applyFold s).mainPot = s.mainPot ∧ (applyFold s).currentBet = s.currentBet ∧
    (applyFold s).stage = s.stage ∧ (applyFold s).roundOver = s.roundOver ∧
    (applyFold s).deck = s.deck ∧ (applyFold s).dealerIndex = s.dealerIndex ∧
    (applyFold s).minBet = s.minBet ∧
    (applyFold s).currentPlayerIndex = s.currentPlayerIndex ∧
    (applyFold s).players.length = s.players.length ∧
    (∀ j, (getPlayer (applyFold s) j).chips = (getPlayer s j).chips ∧
          (getPlayer (applyFold s) j).bet = (getPlayer s j).bet) ∧
    (∀ j, j ≠ s.currentPlayerIndex →
      (getPlayer (applyFold s) j).folded = (getPlayer s j).folded) := by
  refine ⟨?_, ?_, rfl, rfl, rfl, rfl, rfl, rfl, rfl, rfl, by simp [applyFold], ?_, ?_⟩
  · unfold applyFold chipSum
    simp only
    rw [sum_map_set _ _ _ _ hi]
    unfold getPlayer
    ring
  · unfold applyFold betSum
    simp only
    rw [sum_map_set _ _ _ _ hi]
    unfold getPlayer
    ring
  · intro j
    by_cases hij : s.currentPlayerIndex = j
    · subst hij
      unfold applyFold getPlayer
      rw [getD_set_self _ _ _ _ hi]
      exact ⟨rfl, rfl⟩
    · unfold applyFold getPlayer
      rw [getD_set_ne _ _ _ hij]
      exact ⟨rfl, rfl⟩
  · intro j hj
    unfold applyFold getPlayer
    rw [getD_set_ne _ _ _ (fun hh => hj hh.symm)]

/-- The shared shape of `call`, `raise` and `all-in`: move `δ` chips from
the actor's stack to the pot while adding them to the stage bet. -/
theorem moveDelta_pack (s : GameState) (q : Player) (pot' cb' : ℤ) (lg : List String)
    (hi : s.currentPlayerIndex < s.players.length) (δ : ℤ)
    (hq : q.chips = (getPlayer s s.currentPlayerIndex).chips - δ ∧
          q.bet = (getPlayer s s.currentPlayerIndex).bet + δ ∧
          q.folded = (getPlayer s s.currentPlayerIndex).folded) :
    chipSum { s with players := s.players.set s.currentPlayerIndex q,
                     mainPot := pot', currentBet := cb', log := lg } = chipSum s - δ ∧
    betSum { s with players := s.players.set s.currentPlayerIndex q,
                    mainPot := pot', currentBet := cb', log := lg } = betSum s + δ ∧
    (∀ j, (getPlayer { s with players := s.players.set s.currentPlayerIndex q,
                              mainPot := pot', currentBet := cb', log := lg } j).folded
        = (getPlayer s j).folded) := by
  refine ⟨?_, ?_, ?_⟩
  · unfold chipSum
    simp only
    rw [sum_map_set _ _ _ _ hi, hq.1]
    unfold getPlayer
    ring
  · unfold betSum
    simp only
    rw [sum_map_set _ _ _ _ hi, hq.2.1]
    unfold getPlayer
    ring
  · intro j
    by_cases hij : s.currentPlayerIndex = j
    · subst hij
      unfold getPlayer
      simp only
      rw [getD_set_self _ _ _ _ hi]
      exact hq.2.2
    · unfold getPlayer
      simp only
      rw [getD_set_ne _ _ _ hij]

theorem getPlayer_mem (s : GameState) (i : ℕ) (hi : i < s.players.length) :
    getPlayer s i ∈ s.players := by
  unfold getPlayer
  rw [List.getD_eq_getElem?_getD, List.getElem?_eq_getElem hi]
  exact List.getElem_mem hi

theorem mem_set_cases {l : List Player} {i : ℕ} {q x : Player} (hx : x ∈ l.set i q) :
    x ∈ l ∨ x = q := List.mem_or_eq_of_mem_set hx

theorem activeIndices_fold_ge_one (s : GameState) (h2 : s.players.length = 2)
    (hi : s.currentPlayerIndex < 2) (hact : (activeIndices s).length = 2) :
    1 ≤ (activeIndices (applyFold s)).length := by
  obtain ⟨-, -, -, -, -, -, -, -, -, -, fl, -, ff⟩ := applyFold_pack s (by omega)
  have hsub : (activeIndices s).Sublist (List.range s.players.length) :=
    List.filter_sublist _
  have heq : activeIndices s = List.range s.players.length :=
    hsub.eq_of_length (by rw [hact, List.length_range, h2])
  have hj2 : 1 - s.currentPlayerIndex < 2 := by omega
  have hjne : 1 - s.currentPlayerIndex ≠ s.currentPlayerIndex := by omega
  have hjmem : 1 - s.currentPlayerIndex ∈ activeIndices s := by
    rw [heq, h2]
    exact List.mem_range.mpr hj2
  have hjf : (getPlayer s (1 - s.currentPlayerIndex)).folded = false :=
    ((mem_activeIndices s _).mp hjmem).2
  have hjmem' : 1 - s.currentPlayerIndex ∈ activeIndices (applyFold s) := by
    rw [mem_activeIndices]
    refine ⟨by rw [fl, h2]; exact hj2, ?_⟩
    rw [ff _ hjne]
    exact hjf
  exact List.length_pos.mpr (List.ne_nil_of_mem hjmem')

/-- Everything the cascade needs to know about the state right after the
action switch, before `nextPlayer` runs. -/
theorem core_facts {T : ℤ} {s s1 : GameState} (hI : HandInv T s) (hro : s.roundOver = false)
    (a : PlayerAction) (amt : ℤ) (h : applyActionCore a amt s = .ok s1) :
    s1.players.length = 2 ∧
    chipSum s1 + s1.mainPot = T ∧
    (∀ p ∈ s1.players, 0 ≤ p.chips) ∧
    (∀ p ∈ s1.players, 0 ≤ p.bet) ∧
    0 ≤ s1.currentBet ∧
    s1.minBet = 10 ∧
    betSum s1 ≤ s1.mainPot ∧
    s1.roundOver = false ∧
    s1.stage = s.stage ∧
    s1.deck = s.deck ∧
    s1.dealerIndex = s.dealerIndex ∧
    1 ≤ (activeIndices s1).length ∧
    (activeIndices s1).length ≤ 2 := by
  have h2 := hI.twoPlayers
  have hi : s.currentPlayerIndex < s.players.length := by rw [h2]; exact hI.idxLt
  have hpmem := getPlayer_mem s s.currentPlayerIndex hi
  have hpc := hI.chipsNonneg _ hpmem
  have hpb := hI.betsNonneg _ hpmem
  have hcb := hI.curBetNonneg
  have hT := hI.conserved
  have hbp := hI.potGeBets hro
  have hatwo := hI.activeTwo hro
  cases a with
  | fold =>
    simp only [applyActionCore, Except.ok.injEq] at h
    subst h
    obtain ⟨f1, f2, f3, f4, f5, f6, f7, f8, f9, f10, f11, f12, f13⟩ := applyFold_pack s hi
    refine ⟨by rw [f11, h2], by rw [f1, f3]; exact hT, ?_, ?_, by rw [f4]; exact hcb,
      by rw [f9]; exact hI.minBetEq, by rw [f2, f3]; exact hbp, by rw [f6]; exact hro,
      f5, f7, f8, ?_, ?_⟩
    · intro p hp
      rcases mem_set_cases hp with hp | hp
      · exact hI.chipsNonneg p hp
      · subst hp
        exact hpc
    · intro p hp
      rcases mem_set_cases hp with hp | hp
      · exact hI.betsNonneg p hp
      · subst hp
        exact hpb
    · exact activeIndices_fold_ge_one s h2 hI.idxLt hatwo
    · calc (activeIndices (applyFold s)).length ≤ (applyFold s).players.length :=
          activeIndices_len_le _
        _ = 2 := by rw [f11, h2]
  | check =>
    simp only [applyActionCore] at h
    split at h
    · exact absurd h (by simp)
    · simp only [Except.ok.injEq] at h
      subst h
      have hact : activeIndices { s with log := s.log ++
          [(getPlayer s s.currentPlayerIndex).name ++ " checks"] } = activeIndices s :=
        activeIndices_congr rfl (fun j => rfl)
      exact ⟨h2, hT, hI.chipsNonneg, hI.betsNonneg, hcb, hI.minBetEq, hbp, hro, rfl, rfl, rfl,
        by rw [hact, hatwo]; omega, by rw [hact, hatwo]⟩
  | call =>
    simp only [applyActionCore, Except.ok.injEq] at h
    subst h
    obtain ⟨m1, m2, m3⟩ := moveDelta_pack s
      { getPlayer s s.currentPlayerIndex with
          chips := (getPlayer s s.currentPlayerIndex).chips -
            min (s.currentBet - (getPlayer s s.currentPlayerIndex).bet)
              (getPlayer s s.currentPlayerIndex).chips,
          bet := (getPlayer s s.currentPlayerIndex).bet +
            min (s.currentBet - (getPlayer s s.currentPlayerIndex).bet)
              (getPlayer s s.currentPlayerIndex).chips }
      (s.mainPot + min (s.currentBet -
        (getPlayer s s.currentPlayerIndex).bet) (getPlayer s s.currentPlayerIndex).chips)
      s.currentBet (s.log ++ [(getPlayer s s.currentPlayerIndex).name ++ " calls " ++
        toString (min (s.currentBet - (getPlayer s s.currentPlayerIndex).bet)
          (getPlayer s s.currentPlayerIndex).chips)]) hi
      (min (s.currentBet - (getPlayer s s.currentPlayerIndex).bet)
        (getPlayer s s.currentPlayerIndex).chips) ⟨rfl, rfl, rfl⟩
    have hδchips : min (s.currentBet - (getPlayer s s.currentPlayerIndex).bet)
        (getPlayer s s.currentPlayerIndex).chips ≤ (getPlayer s s.currentPlayerIndex).chips :=
      min_le_right _ _
    have hbet' : 0 ≤ (getPlayer s s.currentPlayerIndex).bet +
        min (s.currentBet - (getPlayer s s.currentPlayerIndex).bet)
          (getPlayer s s.currentPlayerIndex).chips := by
      rcases le_total (s.currentBet - (getPlayer s s.currentPlayerIndex).bet)
          (getPlayer s s.currentPlayerIndex).chips with hmin | hmin
      · rw [min_eq_left hmin]
        omega
      · rw [min_eq_right hmin]
        omega
    have hact : activeIndices (applyCall s) = activeIndices s :=
      activeIndices_congr (by simp [applyCall]) m3
    refine ⟨by simp [applyCall, h2], ?_, ?_, ?_, hcb, hI.minBetEq, ?_, hro, rfl, rfl, rfl,
      by rw [hact, hatwo]; omega, by rw [hact, hatwo]⟩
    · show chipSum (applyCall s) + (s.mainPot + _) = T
      rw [show chipSum (applyCall s) = chipSum s - min (s.currentBet -
        (getPlayer s s.currentPlayerIndex).bet) (getPlayer s s.currentPlayerIndex).chips from m1]
      linarith
    · intro p hp
      rcases mem_set_cases hp with hp | hp
      · exact hI.chipsNonneg p hp
      · subst hp
        show (0 : ℤ) ≤ (getPlayer s s.currentPlayerIndex).chips - _
        omega
    · intro p hp
      rcases mem_set_cases hp with hp | hp
      · exact hI.betsNonneg p hp
      · subst hp
        exact hbet'
    · show betSum (applyCall s) ≤ s.mainPot + _
      rw [show betSum (applyCall s) = betSum s + min (s.currentBet -
        (getPlayer s s.currentPlayerIndex).bet) (getPlayer s s.currentPlayerIndex).chips from m2]
      linarith
  | raise =>
    simp only [applyActionCore, Except.ok.injEq] at h
    subst h
    have hamt : 10 ≤ (if amt < s.minBet then s.minBet else amt) := by
      have := hI.minBetEq
      by_cases hlt : amt < s.minBet
      · rw [if_pos hlt]
        omega
      · rw [if_neg hlt]
        omega
    obtain ⟨m1, m2, m3⟩ := moveDelta_pack s
      { getPlayer s s.currentPlayerIndex with
          chips := (getPlayer s s.currentPlayerIndex).chips -
            min (s.currentBet + (if amt < s.minBet then s.minBet else amt) -
              (getPlayer s s.currentPlayerIndex).bet) (getPlayer s s.currentPlayerIndex).chips,
          bet := (getPlayer s s.currentPlayerIndex).bet +
            min (s.currentBet + (if amt < s.minBet then s.minBet else amt) -
              (getPlayer s s.currentPlayerIndex).bet) (getPlayer s s.currentPlayerIndex).chips }
      (s.mainPot + min (s.currentBet +
        (if amt < s.minBet then s.minBet else amt) - (getPlayer s s.currentPlayerIndex).bet)
        (getPlayer s s.currentPlayerIndex).chips)
      ((getPlayer s s.currentPlayerIndex).bet + min (s.currentBet +
        (if amt < s.minBet then s.minBet else amt) - (getPlayer s s.currentPlayerIndex).bet)
        (getPlayer s s.currentPlayerIndex).chips)
      (s.log ++ [(getPlayer s s.currentPlayerIndex).name ++ " raises to " ++
        toString ((getPlayer s s.currentPlayerIndex).bet + min (s.currentBet +
          (if amt < s.minBet then s.minBet else amt) - (getPlayer s s.currentPlayerIndex).bet)
          (getPlayer s s.currentPlayerIndex).chips)]) hi
      (min (s.currentBet + (if amt < s.minBet then s.minBet else amt) -
        (getPlayer s s.currentPlayerIndex).bet) (getPlayer s s.currentPlayerIndex).chips)
      ⟨rfl, rfl, rfl⟩
    have hbet' : 0 ≤ (getPlayer s s.currentPlayerIndex).bet +
        min (s.currentBet + (if amt < s.minBet then s.minBet else amt) -
          (getPlayer s s.currentPlayerIndex).bet) (getPlayer s s.currentPlayerIndex).chips := by
      rcases le_total (s.currentBet + (if amt < s.minBet then s.minBet else amt) -
          (getPlayer s s.currentPlayerIndex).bet) (getPlayer s s.currentPlayerIndex).chips
        with hmin | hmin
      · rw [min_eq_left hmin]
        omega
      · rw [min_eq_right hmin]
        omega
    have hact : activeIndices (applyRaise amt s) = activeIndices s :=
      activeIndices_congr (by simp [applyRaise]) m3
    refine ⟨by simp [applyRaise, h2], ?_, ?_, ?_, hbet', hI.minBetEq, ?_, hro, rfl, rfl, rfl,
      by rw [hact, hatwo]; omega, by rw [hact, hatwo]⟩
    · show chipSum (applyRaise amt s) + (s.mainPot + _) = T
      rw [show chipSum (applyRaise amt s) = chipSum s - _ from m1]
      linarith
    · intro p hp
      rcases mem_set_cases hp with hp | hp
      · exact hI.chipsNonneg p hp
      · subst hp
        show (0 : ℤ) ≤ (getPlayer s s.currentPlayerIndex).chips - _
        have : min (s.currentBet + (if amt < s.minBet then s.minBet else amt) -
            (getPlayer s s.currentPlayerIndex).bet) (getPlayer s s.currentPlayerIndex).chips
            ≤ (getPlayer s s.currentPlayerIndex).chips := min_le_right _ _
        omega
    · intro p hp
      rcases mem_set_cases hp with hp | hp
      · exact hI.betsNonneg p hp
      · subst hp
        exact hbet'
    · show betSum (applyRaise amt s) ≤ s.mainPot + _
      rw [show betSum (applyRaise amt s) = betSum s + _ from m2]
      linarith
  | allin =>
    simp only [applyActionCore, Except.ok.injEq] at h
    subst h
    obtain ⟨m1, m2, m3⟩ := moveDelta_pack s
      { getPlayer s s.currentPlayerIndex with
          chips := 0,
          bet := (getPlayer s s.currentPlayerIndex).bet +
            (getPlayer s s.currentPlayerIndex).chips }
      (s.mainPot + (getPlayer s s.currentPlayerIndex).chips)
      (if s.currentBet < (getPlayer s s.currentPlayerIndex).bet +
          (getPlayer s s.currentPlayerIndex).chips then
        (getPlayer s s.currentPlayerIndex).bet + (getPlayer s s.currentPlayerIndex).chips
       else s.currentBet)
      (s.log ++ [(getPlayer s s.currentPlayerIndex).name ++ " goes all-in"]) hi
      (getPlayer s s.currentPlayerIndex).chips
      ⟨by ring, rfl, rfl⟩
    have hact : activeIndices (applyAllin s) = activeIndices s :=
      activeIndices_congr (by simp [applyAllin]) m3
    have hcb' : 0 ≤ (if s.currentBet < (getPlayer s s.currentPlayerIndex).bet +
        (getPlayer s s.currentPlayerIndex).chips then
          (getPlayer s s.currentPlayerIndex).bet + (getPlayer s s.currentPlayerIndex).chips
        else s.currentBet) := by
      by_cases hlt : s.currentBet < (getPlayer s s.currentPlayerIndex).bet +
          (getPlayer s s.currentPlayerIndex).chips
      · rw [if_pos hlt]
        omega
      · rw [if_neg hlt]
        exact hcb
    refine ⟨by simp [applyAllin, h2], ?_, ?_, ?_, hcb', hI.minBetEq, ?_, hro, rfl, rfl, rfl,
      by rw [hact, hatwo]; omega, by rw [hact, hatwo]⟩
    · show chipSum (applyAllin s) + (s.mainPot + _) = T
      rw [show chipSum (applyAllin s) = chipSum s - _ from m1]
      linarith
    · intro p hp
      rcases mem_set_cases hp with hp | hp
      · exact hI.chipsNonneg p hp
      · subst hp
        show (0 : ℤ) ≤ (0 : ℤ)
        exact le_refl _
    · intro p hp
      rcases mem_set_cases hp with hp | hp
      · exact hI.betsNonneg p hp
      · subst hp
        show (0 : ℤ) ≤ (getPlayer s s.currentPlayerIndex).bet +
          (getPlayer s s.currentPlayerIndex).chips
        omega
    · show betSum (applyAllin s) ≤ s.mainPot + _
      rw [show betSum (applyAllin s) = betSum s + _ from m2]
      linarith

theorem getPlayer_eq_getElem (s : GameState) (j : ℕ) (hj : j < s.players.length) :
    getPlayer s j = s.players.get ⟨j, hj⟩ := by
  unfold getPlayer
  rw [List.getD_eq_getElem?_getD, List.getElem?_eq_getElem hj]
  rfl

theorem forall_mem_players {s : GameState} {P : Player → Prop}
    (h : ∀ j, j < s.players.length → P (getPlayer s j)) : ∀ p ∈ s.players, P p := by
  intro p hp
  obtain ⟨j, hj, he⟩ := List.mem_iff_getElem.mp hp
  have := h j hj
  rw [getPlayer_eq_getElem s j hj] at this
  simpa [he] using this

theorem chipSum_eq_of_chips {s t : GameState} (hl : t.players.length = s.players.length)
    (h : ∀ j, (getPlayer t j).chips = (getPlayer s j).chips) : chipSum t = chipSum s := by
  unfold chipSum
  congr 1
  apply List.ext_getElem (by rw [List.length_map, List.length_map, hl])
  intro j h1 h2
  rw [List.length_map] at h1 h2
  have := h j
  rw [getPlayer_eq_getElem t j h1, getPlayer_eq_getElem s j h2] at this
  simpa using this

theorem betSum_eq_of_bets {s t : GameState} (hl : t.players.length = s.players.length)
    (h : ∀ j, (getPlayer t j).bet = (getPlayer s j).bet) : betSum t = betSum s := by
  unfold betSum
  congr 1
  apply List.ext_getElem (by rw [List.length_map, List.length_map, hl])
  intro j h1 h2
  rw [List.length_map] at h1 h2
  have := h j
  rw [getPlayer_eq_getElem t j h1, getPlayer_eq_getElem s j h2] at this
  simpa using this

theorem stageDeckBound_congr {s t : GameState} (hst : t.stage = s.stage)
    (hd : t.deck.length = s.deck.length) (h : stageDeckBound s) : stageDeckBound t := by
  unfold stageDeckBound at h ⊢
  rw [hst]
  cases hs : s.stage <;> rw [hs] at h <;> rw [hd] <;> exact h

theorem resetBets_facts (s : GameState) :
    (resetBetsForNewStage s).players.length = s.players.length ∧
    chipSum (resetBetsForNewStage s) = chipSum s ∧
    betSum (resetBetsForNewStage s) = 0 ∧
    (∀ p ∈ (resetBetsForNewStage s).players, p.bet = 0 ∧ ∃ q ∈ s.players, p.chips = q.chips) ∧
    (resetBetsForNewStage s).currentBet = 0 ∧
    (∀ j, (getPlayer (resetBetsForNewStage s) j).folded = (getPlayer s j).folded) ∧
    (resetBetsForNewStage s).mainPot = s.mainPot ∧
    (resetBetsForNewStage s).stage = s.stage ∧
    (resetBetsForNewStage s).roundOver = s.roundOver ∧
    (resetBetsForNewStage s).deck = s.deck ∧
    (resetBetsForNewStage s).dealerIndex = s.dealerIndex ∧
    (resetBetsForNewStage s).minBet = s.minBet ∧
    (0 < s.players.length → (resetBetsForNewStage s).currentPlayerIndex < s.players.length) := by
  have hcomp : Player.chips ∘ (fun p => { p with bet := 0 }) = Player.chips :=
    funext fun p => rfl
  have hcompb : Player.bet ∘ (fun p : Player => { p with bet := 0 }) = fun _ => (0 : ℤ) :=
    funext fun p => rfl
  refine ⟨?_, ?_, ?_, ?_, rfl, ?_, rfl, rfl, rfl, rfl, rfl, rfl, ?_⟩
  · show (s.players.map _).length = _
    rw [List.length_map]
  · show ((s.players.map _).map Player.chips).sum = _
    rw [List.map_map, hcomp]
    rfl
  · show ((s.players.map _).map Player.bet).sum = 0
    rw [List.map_map, hcompb]
    induction s.players with
    | nil => rfl
    | cons a l ih => simp [ih]
  · intro p hp
    obtain ⟨q, hq, rfl⟩ := List.mem_map.mp hp
    exact ⟨rfl, q, hq, rfl⟩
  · intro j
    unfold getPlayer
    by_cases hj : j < s.players.length
    · show ((s.players.map _).getD j defaultPlayer).folded = _
      rw [getD_map_lt _ _ _ defaultPlayer _ hj]
    · push_neg at hj
      show ((s.players.map _).getD j defaultPlayer).folded =
        (s.players.getD j defaultPlayer).folded
      rw [getD_of_length_le _ _ _ (by rw [List.length_map]; exact hj),
        getD_of_length_le _ _ _ hj]
  · intro h0
    show resetIdxGo (s.players.map _) _ (s.players.map _).length _ < s.players.length
    have hlen : (s.players.map (fun p => { p with bet := 0 })).length = s.players.length :=
      List.length_map _ _
    rw [← hlen]
    exact resetIdxGo_lt _ _ _ _ (Nat.mod_lt _ (by rw [hlen]; exact h0))
      (by rw [hlen]; exact h0)

theorem dealFlop_facts {s t : GameState} (h : dealFlop s = .ok t) :
    t.players = s.players ∧ t.mainPot = s.mainPot ∧ t.currentBet = s.currentBet ∧
    t.stage = .flop ∧ t.roundOver = s.roundOver ∧ t.dealerIndex = s.dealerIndex ∧
    t.minBet = s.minBet ∧ t.currentPlayerIndex = s.currentPlayerIndex ∧
    t.deck.length + 4 = s.deck.length := by
  unfold dealFlop at h
  split at h
  · exact absurd h (by simp)
  · rename_i c0 s1 h1
    split at h
    · exact absurd h (by simp)
    · rename_i c1 s2 h2
      split at h
      · exact absurd h (by simp)
      · rename_i c2 s3 h3
        split at h
        · exact absurd h (by simp)
        · rename_i c3 s4 h4
          simp only [Except.ok.injEq] at h
          subst h
          obtain ⟨p1, m1, b1, e1, q1, -, r1, -, -, i1, d1, n1⟩ := drawCard_ok h1
          obtain ⟨p2, m2, b2, e2, q2, -, r2, -, -, i2, d2, n2⟩ := drawCard_ok h2
          obtain ⟨p3, m3, b3, e3, q3, -, r3, -, -, i3, d3, n3⟩ := drawCard_ok h3
          obtain ⟨p4, m4, b4, e4, q4, -, r4, -, -, i4, d4, n4⟩ := drawCard_ok h4
          have l1 : s1.deck.length + 1 = s.deck.length := by
            rw [d1, List.length_dropLast]
            have := List.length_pos.mpr n1
            omega
          have l2 : s2.deck.length + 1 = s1.deck.length := by
            rw [d2, List.length_dropLast]
            have := List.length_pos.mpr n2
            omega
          have l3 : s3.deck.length + 1 = s2.deck.length := by
            rw [d3, List.length_dropLast]
            have := List.length_pos.mpr n3
            omega
          have l4 : s4.deck.length + 1 = s3.deck.length := by
            rw [d4, List.length_dropLast]
            have := List.length_pos.mpr n4
            omega
          refine ⟨?_, ?_, ?_, rfl, ?_, ?_, ?_, ?_, ?_⟩
          · show s4.players = s.players
            rw [p4, p3, p2, p1]
          · show s4.mainPot = s.mainPot
            rw [m4, m3, m2, m1]
          · show s4.currentBet = s.currentBet
            rw [b4, b3, b2, b1]
          · show s4.roundOver = s.roundOver
            rw [r4, r3, r2, r1]
          · show s4.dealerIndex = s.dealerIndex
            rw [e4, e3, e2, e1]
          · show s4.minBet = s.minBet
            rw [q4, q3, q2, q1]
          · show s4.currentPlayerIndex = s.currentPlayerIndex
            rw [i4, i3, i2, i1]
          · show s4.deck.length + 4 = s.deck.length
            omega

theorem dealTurn_facts {s t : GameState} (h : dealTurn s = .ok t) :
    t.players = s.players ∧ t.mainPot = s.mainPot ∧ t.currentBet = s.currentBet ∧
    t.stage = .turn ∧ t.roundOver = s.roundOver ∧ t.dealerIndex = s.dealerIndex ∧
    t.minBet = s.minBet ∧ t.currentPlayerIndex = s.currentPlayerIndex ∧
    t.deck.length + 2 = s.deck.length := by
  unfold dealTurn at h
  split at h
  · exact absurd h (by simp)
  · rename_i c0 s1 h1
    split at h
    · exact absurd h (by simp)
    · rename_i c1 s2 h2
      simp only [Except.ok.injEq] at h
      subst h
      obtain ⟨p1, m1, b1, e1, q1, -, r1, -, -, i1, d1, n1⟩ := drawCard_ok h1
      obtain ⟨p2, m2, b2, e2, q2, -, r2, -, -, i2, d2, n2⟩ := drawCard_ok h2
      have l1 : s1.deck.length + 1 = s.deck.length := by
        rw [d1, List.length_dropLast]
        have := List.length_pos.mpr n1
        omega
      have l2 : s2.deck.length + 1 = s1.deck.length := by
        rw [d2, List.length_dropLast]
        have := List.length_pos.mpr n2
        omega
      exact ⟨p2.trans p1, m2.trans m1, b2.trans b1, rfl, r2.trans r1, e2.trans e1,
        q2.trans q1, i2.trans i1, show s2.deck.length + 2 = s.deck.length by omega⟩

theorem dealRiver_facts {s t : GameState} (h : dealRiver s = .ok t) :
    t.players = s.players ∧ t.mainPot = s.mainPot ∧ t.currentBet = s.currentBet ∧
    t.stage = .river ∧ t.roundOver = s.roundOver ∧ t.dealerIndex = s.dealerIndex ∧
    t.minBet = s.minBet ∧ t.currentPlayerIndex = s.currentPlayerIndex ∧
    t.deck.length + 2 = s.deck.length := by
  unfold dealRiver at h
  split at h
  · exact absurd h (by simp)
  · rename_i c0 s1 h1
    split at h
    · exact absurd h (by simp)
    · rename_i c1 s2 h2
      simp only [Except.ok.injEq] at h
      subst h
      obtain ⟨p1, m1, b1, e1, q1, -, r1, -, -, i1, d1, n1⟩ := drawCard_ok h1
      obtain ⟨p2, m2, b2, e2, q2, -, r2, -, -, i2, d2, n2⟩ := drawCard_ok h2
      have l1 : s1.deck.length + 1 = s.deck.length := by
        rw [d1, List.length_dropLast]
        have := List.length_pos.mpr n1
        omega
      have l2 : s2.deck.length + 1 = s1.deck.length := by
        rw [d2, List.length_dropLast]
        have := List.length_pos.mpr n2
        omega
      exact ⟨p2.trans p1, m2.trans m1, b2.trans b1, rfl, r2.trans r1, e2.trans e1,
        q2.trans q1, i2.trans i1, show s2.deck.length + 2 = s.deck.length by omega⟩

theorem endHand_inv {T : ℤ} {s : GameState}
    (h2 : s.players.length = 2)
    (hT : chipSum s + s.mainPot = T)
    (hc : ∀ p ∈ s.players, 0 ≤ p.chips)
    (hb : ∀ p ∈ s.players, 0 ≤ p.bet)
    (hcb : 0 ≤ s.currentBet)
    (hmb : s.minBet = 10)
    (hidx : s.currentPlayerIndex < 2)
    (hdeck : 40 ≤ s.deck.length)
    (hpot : 0 ≤ s.mainPot)
    (hact1 : 1 ≤ (activeIndices s).length)
    {ws : List ℕ} (hws : ws ≠ []) (hval : ∀ i ∈ ws, i < s.players.length) :
    HandInv T (endHand ws s) := by
  obtain ⟨a1, a2, a3, a4, a5, a6, a7, a8, a9, a10, a11, a12, a13⟩ :=
    awardPot_spec ws s hws hval hpot
  have hlen : (endHand ws s).players.length = s.players.length := by
    show (awardPot ws s).players.length = s.players.length
    exact a3
  have hactEq : activeIndices (endHand ws s) = activeIndices s := by
    refine activeIndices_congr hlen (fun j => ?_)
    show (getPlayer (awardPot ws s) j).folded = (getPlayer s j).folded
    exact (a5 j).2
  refine ⟨?_, ?_, ?_, ?_, ?_, ?_, ?_, ?_, ?_, ?_, ?_, ?_, ?_⟩
  · rw [hlen]
    exact h2
  · show chipSum (awardPot ws s) + (awardPot ws s).mainPot = T
    rw [a1, a2]
    linarith
  · show ∀ p ∈ (awardPot ws s).players, 0 ≤ p.chips
    apply forall_mem_players
    intro j hj
    exact le_trans (hc _ (getPlayer_mem s j (by rw [← a3]; exact hj))) (a4 j)
  · show ∀ p ∈ (awardPot ws s).players, 0 ≤ p.bet
    apply forall_mem_players
    intro j hj
    rw [(a5 j).1]
    exact hb _ (getPlayer_mem s j (by rw [← a3]; exact hj))
  · show 0 ≤ (awardPot ws s).currentBet
    rw [a6]
    exact hcb
  · show (awardPot ws s).minBet = 10
    rw [a11]
    exact hmb
  · show (awardPot ws s).currentPlayerIndex < 2
    rw [a12]
    exact hidx
  · intro hro
    exact Bool.noConfusion (show true = false from hro)
  · intro _
    exact a1
  · intro hro
    exact Bool.noConfusion (show true = false from hro)
  · rw [hactEq]
    exact hact1
  · intro _
    rfl
  · show 40 ≤ (endHand ws s).deck.length
    rw [show (endHand ws s).deck = (awardPot ws s).deck from rfl, a9]
    exact hdeck

theorem showdown_inv {T : ℤ} {s t : GameState}
    (h2 : s.players.length = 2)
    (hT : chipSum s + s.mainPot = T)
    (hc : ∀ p ∈ s.players, 0 ≤ p.chips)
    (hb : ∀ p ∈ s.players, 0 ≤ p.bet)
    (hcb : 0 ≤ s.currentBet)
    (hmb : s.minBet = 10)
    (hidx : s.currentPlayerIndex < 2)
    (hdeck : 40 ≤ s.deck.length)
    (hpot : 0 ≤ s.mainPot)
    (hact1 : 1 ≤ (activeIndices s).length)
    (h : showdown s = .ok t) :
    HandInv T t := by
  unfold showdown at h
  dsimp only at h
  split at h
  · exact absurd h (by simp)
  · rename_i s2 hev
    simp only [Except.ok.injEq] at h
    obtain ⟨g1, g2, g3, g4, g5, g6, g7, g8, g9, g10, g11, g12, g13⟩ := evalActives_proj _ _ _ hev
    have hA : activeIndices { s with stage := GameStage.showdown } = activeIndices s :=
      activeIndices_congr rfl (fun j => rfl)
    have hsublist := pickWinners_sublist s2
      (sortIdxByValue s2 (activeIndices { s with stage := GameStage.showdown }))
    have hperm := sortIdxByValue_perm s2 (activeIndices { s with stage := GameStage.showdown })
    have hval : ∀ i ∈ pickWinners s2
        (sortIdxByValue s2 (activeIndices { s with stage := GameStage.showdown })),
        i < s2.players.length := by
      intro i hi
      have hi2 : i ∈ activeIndices { s with stage := GameStage.showdown } :=
        hperm.subset (hsublist.subset hi)
      have := activeIndices_sub { s with stage := GameStage.showdown } i hi2
      rw [g1]
      exact this
    have hs2pot : s2.mainPot = s.mainPot := g3
    have hws : pickWinners s2
        (sortIdxByValue s2 (activeIndices { s with stage := GameStage.showdown })) ≠ [] := by
      cases hsorted : sortIdxByValue s2 (activeIndices { s with stage := GameStage.showdown }) with
      | nil =>
        have hlen1 := hperm.length_eq
        rw [hsorted, hA] at hlen1
        simp at hlen1
        omega
      | cons i rest =>
        have hi2 : i ∈ activeIndices { s with stage := GameStage.showdown } :=
          hperm.subset (by rw [hsorted]; exact List.mem_cons_self i rest)
        exact pickWinners_ne_nil s2 i rest (g13 i hi2 (activeIndices_sub _ i hi2))
    set W := pickWinners s2
      (sortIdxByValue s2 (activeIndices { s with stage := GameStage.showdown })) with hWdef
    obtain ⟨a1, a2, a3, a4, a5, a6, a7, a8, a9, a10, a11, a12, a13⟩ :=
      awardPot_spec W s2 hws hval (by rw [hs2pot]; exact hpot)
    subst h
    have hchipSum2 : chipSum s2 = chipSum s :=
      chipSum_eq_of_chips g1 (fun j => (g2 j).2.1)
    have hlen2 : s2.players.length = s.players.length := g1
    refine ⟨?_, ?_, ?_, ?_, ?_, ?_, ?_, ?_, ?_, ?_, ?_, ?_, ?_⟩
    · show (awardPot W s2).players.length = 2
      rw [a3, hlen2]
      exact h2
    · show chipSum (awardPot W s2) + (awardPot W s2).mainPot = T
      rw [a1, a2, hchipSum2, hs2pot]
      linarith
    · show ∀ p ∈ (awardPot W s2).players, 0 ≤ p.chips
      apply forall_mem_players
      intro j hj
      rw [a3, hlen2] at hj
      refine le_trans ?_ (a4 j)
      rw [(g2 j).2.1]
      exact hc _ (getPlayer_mem s j hj)
    · show ∀ p ∈ (awardPot W s2).players, 0 ≤ p.bet
      apply forall_mem_players
      intro j hj
      rw [a3, hlen2] at hj
      rw [(a5 j).1, (g2 j).1]
      exact hb _ (getPlayer_mem s j hj)
    · show 0 ≤ (awardPot W s2).currentBet
      rw [a6, g4]
      exact hcb
    · show (awardPot W s2).minBet = 10
      rw [a11, g9]
      exact hmb
    · show (awardPot W s2).currentPlayerIndex < 2
      rw [a12, g10]
      exact hidx
    · intro hro
      exact Bool.noConfusion (show true = false from hro)
    · intro _
      show (awardPot W s2).mainPot = 0
      exact a1
    · intro hro
      exact Bool.noConfusion (show true = false from hro)
    · show 1 ≤ (activeIndices (awardPot W s2)).length
      rw [activeIndices_congr
        (show (awardPot W s2).players.length = s.players.length by rw [a3, hlen2])
        (fun j => by rw [(a5 j).2, (g2 j).2.2]; rfl)]
      exact hact1
    · intro _
      rfl
    · have hsd1 : stageDeckBound { s with stage := GameStage.showdown } := hdeck
      have hst2 : (awardPot W s2).stage =
          ({ s with stage := GameStage.showdown } : GameState).stage := by
        rw [a7]
        exact g5
      have hdk2 : (awardPot W s2).deck.length =
          ({ s with stage := GameStage.showdown } : GameState).deck.length := by
        rw [a9, g7]
      exact stageDeckBound_congr hst2 hdk2 hsd1

theorem stageDeckBound_flop {t : GameState} (h1 : t.stage = .flop)
    (hd : t.deck.length = 44) : stageDeckBound t := by
  unfold stageDeckBound
  rw [h1]
  exact hd

theorem stageDeckBound_turn {t : GameState} (h1 : t.stage = .turn)
    (hd : t.deck.length = 42) : stageDeckBound t := by
  unfold stageDeckBound
  rw [h1]
  exact hd

theorem stageDeckBound_river {t : GameState} (h1 : t.stage = .river)
    (hd : t.deck.length = 40) : stageDeckBound t := by
  unfold stageDeckBound
  rw [h1]
  exact hd

theorem players_eq_transfer {s1 s : GameState} (h : s1.players = s.players) :
    chipSum s1 = chipSum s ∧ betSum s1 = betSum s ∧ activeIndices s1 = activeIndices s ∧
    s1.players.length = s.players.length := by
  refine ⟨by unfold chipSum; rw [h], by unfold betSum; rw [h], ?_, by rw [h]⟩
  refine activeIndices_congr (by rw [h]) (fun j => ?_)
  unfold getPlayer
  rw [h]

theorem resetBets_inv {T : ℤ} {s : GameState} (hI : HandInv T s) :
    HandInv T (resetBetsForNewStage s) := by
  obtain ⟨r1, r2, r3, r4, r5, r6, r7, r8, r9, r10, r11, r12, r13⟩ := resetBets_facts s
  have hpos : 0 < s.players.length := by rw [hI.twoPlayers]; omega
  have hact : activeIndices (resetBetsForNewStage s) = activeIndices s :=
    activeIndices_congr r1 r6
  refine ⟨?_, ?_, ?_, ?_, ?_, ?_, ?_, ?_, ?_, ?_, ?_, ?_, ?_⟩
  · rw [r1, hI.twoPlayers]
  · rw [r2, r7]
    exact hI.conserved
  · intro p hp
    obtain ⟨-, q, hq, he⟩ := r4 p hp
    rw [he]
    exact hI.chipsNonneg q hq
  · intro p hp
    rw [(r4 p hp).1]
  · rw [r5]
  · rw [r12]
    exact hI.minBetEq
  · rw [← hI.twoPlayers]
    exact r13 hpos
  · intro _
    rw [r3, r7]
    exact hI.potNonneg
  · intro hro'
    rw [r9] at hro'
    rw [r7]
    exact hI.potZeroAtEnd hro'
  · intro hro'
    rw [r9] at hro'
    rw [hact]
    exact hI.activeTwo hro'
  · rw [hact]
    exact hI.activeOne
  · intro hstg
    rw [r8] at hstg
    rw [r9]
    exact hI.showdownOver hstg
  · exact stageDeckBound_congr r8 (by rw [r10]) hI.deckBound

theorem deal_inv {T : ℤ} {s s1 : GameState} {g : GameStage}
    (h2 : s.players.length = 2) (hT : chipSum s + s.mainPot = T)
    (hc : ∀ p ∈ s.players, 0 ≤ p.chips) (hb : ∀ p ∈ s.players, 0 ≤ p.bet)
    (hcb : 0 ≤ s.currentBet) (hmb : s.minBet = 10) (hidx : s.currentPlayerIndex < 2)
    (hbp : betSum s ≤ s.mainPot) (hro : s.roundOver = false)
    (hact2 : (activeIndices s).length = 2)
    (hpl : s1.players = s.players) (hpot : s1.mainPot = s.mainPot)
    (hcb1 : s1.currentBet = s.currentBet) (hstg : s1.stage = g) (hgns : g ≠ .showdown)
    (hro1 : s1.roundOver = s.roundOver) (hmb1 : s1.minBet = s.minBet)
    (hcpi : s1.currentPlayerIndex = s.currentPlayerIndex)
    (hsdb : stageDeckBound s1) :
    HandInv T s1 := by
  obtain ⟨e1, e2, e3, e4⟩ := players_eq_transfer hpl
  refine ⟨by rw [e4, h2], by rw [e1, hpot]; exact hT, ?_, ?_, by rw [hcb1]; exact hcb,
    by rw [hmb1]; exact hmb, by rw [hcpi]; exact hidx, ?_, ?_, ?_, ?_, ?_, hsdb⟩
  · intro p hp
    rw [hpl] at hp
    exact hc p hp
  · intro p hp
    rw [hpl] at hp
    exact hb p hp
  · intro _
    rw [e2, hpot]
    exact hbp
  · intro hro'
    rw [hro1, hro] at hro'
    exact Bool.noConfusion hro'
  · intro _
    rw [e3]
    exact hact2
  · rw [e3, hact2]
    omega
  · intro hs
    rw [hstg] at hs
    exact absurd hs hgns

theorem moveToNextStage_inv {T : ℤ} {s t : GameState}
    (h2 : s.players.length = 2) (hT : chipSum s + s.mainPot = T)
    (hc : ∀ p ∈ s.players, 0 ≤ p.chips) (hb : ∀ p ∈ s.players, 0 ≤ p.bet)
    (hcb : 0 ≤ s.currentBet) (hmb : s.minBet = 10) (hidx : s.currentPlayerIndex < 2)
    (hbp : betSum s ≤ s.mainPot) (hro : s.roundOver = false)
    (hact2 : (activeIndices s).length = 2) (hdb : stageDeckBound s)
    (hst : s.stage ≠ .showdown) (h : moveToNextStage s = .ok t) :
    HandInv T t := by
  have hpot : 0 ≤ s.mainPot := le_trans (betSum_nonneg hb) hbp
  unfold moveToNextStage at h
  dsimp only at h
  unfold stageDeckBound at hdb
  cases hstg : s.stage with
  | preflop =>
    simp only [hstg] at h hdb
    split at h
    · exact absurd h (by simp)
    · rename_i s1 hdf
      simp only [Except.ok.injEq] at h
      subst h
      obtain ⟨f1, f2, f3, f4, f5, f6, f7, f8, f9⟩ := dealFlop_facts hdf
      refine resetBets_inv (deal_inv h2 hT hc hb hcb hmb hidx hbp hro hact2
        f1 f2 f3 f4 (by intro hx; exact GameStage.noConfusion hx) (f5.trans rfl) f7 f8 ?_)
      exact stageDeckBound_flop f4 (by omega)
  | flop =>
    simp only [hstg] at h hdb
    split at h
    · exact absurd h (by simp)
    · rename_i s1 hdf
      simp only [Except.ok.injEq] at h
      subst h
      obtain ⟨f1, f2, f3, f4, f5, f6, f7, f8, f9⟩ := dealTurn_facts hdf
      refine resetBets_inv (deal_inv h2 hT hc hb hcb hmb hidx hbp hro hact2
        f1 f2 f3 f4 (by intro hx; exact GameStage.noConfusion hx) (f5.trans rfl) f7 f8 ?_)
      exact stageDeckBound_turn f4 (by omega)
  | turn =>
    simp only [hstg] at h hdb
    split at h
    · exact absurd h (by simp)
    · rename_i s1 hdf
      simp only [Except.ok.injEq] at h
      subst h
      obtain ⟨f1, f2, f3, f4, f5, f6, f7, f8, f9⟩ := dealRiver_facts hdf
      refine resetBets_inv (deal_inv h2 hT hc hb hcb hmb hidx hbp hro hact2
        f1 f2 f3 f4 (by intro hx; exact GameStage.noConfusion hx) (f5.trans rfl) f7 f8 ?_)
      exact stageDeckBound_river f4 (by omega)
  | river =>
    simp only [hstg] at h hdb
    split at h
    · exact absurd h (by simp)
    · rename_i s1 hsd
      simp only [Except.ok.injEq] at h
      subst h
      exact resetBets_inv (showdown_inv h2 hT hc hb hcb hmb hidx (by omega) hpot
        (by rw [hact2]; omega) hsd)
  | showdown => exact absurd hstg hst

theorem cBRC_inv {T : ℤ} {s t : GameState}
    (h2 : s.players.length = 2) (hT : chipSum s + s.mainPot = T)
    (hc : ∀ p ∈ s.players, 0 ≤ p.chips) (hb : ∀ p ∈ s.players, 0 ≤ p.bet)
    (hcb : 0 ≤ s.currentBet) (hmb : s.minBet = 10) (hidx : s.currentPlayerIndex < 2)
    (hbp : betSum s ≤ s.mainPot) (hro : s.roundOver = false)
    (hact1 : 1 ≤ (activeIndices s).length) (hact2 : (activeIndices s).length ≤ 2)
    (hdb : stageDeckBound s) (hst : s.stage ≠ .showdown)
    (h : checkBettingRoundComplete s = .ok t) : HandInv T t := by
  have hpot : 0 ≤ s.mainPot := le_trans (betSum_nonneg hb) hbp
  unfold checkBettingRoundComplete at h
  dsimp only at h
  by_cases h1 : (activeIndices s).length = 1
  · rw [if_pos h1] at h
    simp only [Except.ok.injEq] at h
    subst h
    have hne : activeIndices s ≠ [] := by
      intro hnil
      rw [hnil] at hact1
      simp at hact1
    have hmem : (activeIndices s).headD 0 ∈ activeIndices s := by
      cases hh : activeIndices s with
      | nil => exact absurd hh hne
      | cons x xs => simp [hh]
    refine endHand_inv h2 hT hc hb hcb hmb hidx (stageDeckBound_ge hdb) hpot hact1
      (by simp) ?_
    intro i hi
    rw [List.mem_singleton] at hi
    subst hi
    exact activeIndices_sub s _ hmem
  · rw [if_neg h1] at h
    by_cases hall : (activeIndices s).all (fun i =>
        ((getPlayer s i).bet == s.currentBet) || ((getPlayer s i).chips == 0)) = true
    · rw [if_pos hall] at h
      exact moveToNextStage_inv h2 hT hc hb hcb hmb hidx hbp hro (by omega) hdb hst h
    · rw [if_neg hall] at h
      simp only [Except.ok.injEq] at h
      subst h
      refine ⟨h2, hT, hc, hb, hcb, hmb, hidx, fun _ => hbp, ?_, fun _ => by omega,
        hact1, ?_, hdb⟩
      · intro hro'
        rw [hro] at hro'
        exact Bool.noConfusion hro'
      · intro hs
        exact absurd hs hst

theorem inv_step {T : ℤ} {s t : GameState} (hI : HandInv T s) (hro : s.roundOver = false)
    (a : PlayerAction) (amt : ℤ) (h : playerAction a amt s = .ok t) : HandInv T t := by
  unfold playerAction at h
  split at h
  · exact absurd h (by simp)
  · rename_i s1 hcore
    obtain ⟨c1, c2, c3, c4, c5, c6, c7, c8, c9, c10, c11, c12, c13⟩ :=
      core_facts hI hro a amt hcore
    unfold nextPlayer at h
    have hsns : s.stage ≠ .showdown := by
      intro hs
      rw [hI.showdownOver hs] at hro
      exact Bool.noConfusion hro
    have hnidx : nextPlayerIdx s1.players s1.currentPlayerIndex < 2 := by
      have := nextPlayerIdx_lt s1.players s1.currentPlayerIndex (by rw [c1]; omega)
      rw [c1] at this
      exact this
    have hstg2 : ({ s1 with currentPlayerIndex := nextPlayerIdx s1.players s1.currentPlayerIndex } : GameState).stage = s.stage := c9
    have hdk2 : ({ s1 with currentPlayerIndex := nextPlayerIdx s1.players s1.currentPlayerIndex } : GameState).deck.length = s.deck.length := by
      show s1.deck.length = s.deck.length
      rw [c10]
    refine cBRC_inv ?_ ?_ ?_ ?_ ?_ ?_ ?_ ?_ ?_ ?_ ?_ ?_ ?_ h
    · show s1.players.length = 2
      exact c1
    · show chipSum s1 + s1.mainPot = T
      exact c2
    · show ∀ p ∈ s1.players, 0 ≤ p.chips
      exact c3
    · show ∀ p ∈ s1.players, 0 ≤ p.bet
      exact c4
    · show 0 ≤ s1.currentBet
      exact c5
    · show s1.minBet = 10
      exact c6
    · exact hnidx
    · show betSum s1 ≤ s1.mainPot
      exact c7
    · show s1.roundOver = false
      exact c8
    · show 1 ≤ (activeIndices s1).length
      exact c12
    · show (activeIndices s1).length ≤ 2
      exact c13
    · exact stageDeckBound_congr hstg2 hdk2 hI.deckBound
    · show s1.stage ≠ GameStage.showdown
      rw [c9]
      exact hsns

theorem chipSum_two {s : GameState} (h2 : s.players.length = 2) :
    chipSum s = (getPlayer s 0).chips + (getPlayer s 1).chips := by
  obtain ⟨a, b, hab⟩ := List.length_eq_two.mp h2
  unfold chipSum getPlayer
  rw [hab]
  simp

theorem betSum_two {s : GameState} (h2 : s.players.length = 2) :
    betSum s = (getPlayer s 0).bet + (getPlayer s 1).bet := by
  obtain ⟨a, b, hab⟩ := List.length_eq_two.mp h2
  unfold betSum getPlayer
  rw [hab]
  simp

theorem inv_start {s t : GameState} {deck : List Card}
    (h2 : s.players.length = 2) (hc : ∀ p ∈ s.players, 0 ≤ p.chips)
    (hmb : s.minBet = 10) (hdl : deck.length = 52)
    (hok : startHand deck s = .ok t) :
    HandInv (chipSum t + t.mainPot) t := by
  obtain ⟨q1, q2, q3, q4, q5, q6, q7, q8, q9, q10, q11, q12, q13, q14, q15, q16⟩ :=
    startHand_spec2 s deck t h2 hok ((s.dealerIndex + 1) % 2) (((s.dealerIndex + 1) % 2 + 1) % 2)
      rfl rfl
  have hdlt : (s.dealerIndex + 1) % 2 < 2 := by omega
  have hsblt : ((s.dealerIndex + 1) % 2 + 1) % 2 < 2 := by omega
  have hne : ((s.dealerIndex + 1) % 2 + 1) % 2 ≠ (s.dealerIndex + 1) % 2 := by omega
  have hchip : ∀ j, j < 2 → 0 ≤ (getPlayer t j).chips := by
    intro j hj
    have hcs : ∀ k, k < 2 → 0 ≤ (getPlayer s k).chips := by
      intro k hk
      exact hc _ (getPlayer_mem s k (by omega))
    by_cases hjsb : j = ((s.dealerIndex + 1) % 2 + 1) % 2
    · subst hjsb
      rw [q13]
      have := min_le_right SMALL_BLIND (getPlayer s (((s.dealerIndex + 1) % 2 + 1) % 2)).chips
      omega
    · have hjd : j = (s.dealerIndex + 1) % 2 := by omega
      subst hjd
      rw [q15]
      have := min_le_right BIG_BLIND (getPlayer s ((s.dealerIndex + 1) % 2)).chips
      omega
  have hbet : ∀ j, j < 2 → 0 ≤ (getPlayer t j).bet := by
    intro j hj
    have hcs : ∀ k, k < 2 → 0 ≤ (getPlayer s k).chips := by
      intro k hk
      exact hc _ (getPlayer_mem s k (by omega))
    by_cases hjsb : j = ((s.dealerIndex + 1) % 2 + 1) % 2
    · subst hjsb
      rw [q12]
      have h5 : (0 : ℤ) ≤ SMALL_BLIND := by decide
      exact le_min h5 (hcs _ hsblt)
    · have hjd : j = (s.dealerIndex + 1) % 2 := by omega
      subst hjd
      rw [q14]
      have h10 : (0 : ℤ) ≤ BIG_BLIND := by decide
      exact le_min h10 (hcs _ hdlt)
  have hbsum : betSum t = t.mainPot := by
    rw [betSum_two q1, q16]
    rcases (by omega : ((s.dealerIndex + 1) % 2 + 1) % 2 = 0 ∧ (s.dealerIndex + 1) % 2 = 1 ∨
        ((s.dealerIndex + 1) % 2 + 1) % 2 = 1 ∧ (s.dealerIndex + 1) % 2 = 0) with
      ⟨hsb0, hd1⟩ | ⟨hsb1, hd0⟩
    · rw [hsb0] at q12
      rw [hd1] at q14
      rw [q12, q14, hsb0, hd1]
    · rw [hsb1] at q12
      rw [hd0] at q14
      rw [q12, q14, hsb1, hd0]
      ring
  have hact : (activeIndices t).length = 2 := by
    rw [activeIndices_all_unfolded (fun j _ => q11 j), q1]
  refine ⟨q1, rfl, ?_, ?_, ?_, ?_, ?_, ?_, ?_, ?_, ?_, ?_, ?_⟩
  · exact forall_mem_players (fun j hj => hchip j (by rw [q1] at hj; exact hj))
  · exact forall_mem_players (fun j hj => hbet j (by rw [q1] at hj; exact hj))
  · rw [q4]
    decide
  · rw [q5]
    exact hmb
  · rw [q3]
    exact hsblt
  · intro _
    rw [hbsum]
  · intro hro'
    rw [q7] at hro'
    exact Bool.noConfusion hro'
  · intro _
    exact hact
  · rw [hact]
    omega
  · intro hs
    rw [q6] at hs
    exact GameStage.noConfusion hs
  · have : stageDeckBound t := by
      unfold stageDeckBound
      rw [q6]
      omega
    exact this

theorem inv_reach {T : ℤ} {s0 s : GameState} (h0 : HandInv T s0) (hr : Reach s0 s) :
    HandInv T s := by
  induction hr with
  | refl => exact h0
  | step a amt hr hro hstep ih => exact inv_step ih hro a amt hstep

theorem pickWinners_tie_pair (s : GameState) (i0 i1 : ℕ)
    (h0 : (getPlayer s i0).handEvaluation.isSome)
    (h1 : (getPlayer s i1).handEvaluation.isSome)
    (hv : evalValue (getPlayer s i0) = evalValue (getPlayer s i1)) :
    pickWinners s (sortIdxByValue s [i0, i1]) = [i0, i1] := by
  cases he0 : (getPlayer s i0).handEvaluation with
  | none => rw [he0] at h0; simp at h0
  | some ev0 =>
    cases he1 : (getPlayer s i1).handEvaluation with
    | none => rw [he1] at h1; simp at h1
    | some ev1 =>
      have hv01 : ev1.value = ev0.value := by
        simp only [evalValue, he0, he1] at hv
        omega
      have hle : evalValue (getPlayer s i1) ≤ evalValue (getPlayer s i0) := le_of_eq hv.symm
      have hs1 : sortIdxByValue s [i0, i1] = [i0, i1] := by
        simp only [sortIdxByValue, insertIdxByValue, if_pos hle]
      rw [hs1]
      have hstep0 : pickStep s ([], -1) i0 = ([i0], (ev0.value : ℤ)) := by
        unfold pickStep
        rw [he0]
        simp
      have hstep1 : pickStep s ([i0], (ev0.value : ℤ)) i1 = ([i0, i1], (ev1.value : ℤ)) := by
        unfold pickStep
        rw [he1]
        simp [hv01]
      unfold pickWinners
      rw [List.foldl_cons, hstep0, List.foldl_cons, hstep1, List.foldl_nil]

/-- C6: at every state reachable by successful player actions in a hand set
up by `startHand` from a two-player table (non-negative stacks, a 52-card
deck), the pot equals the total of the chips the players have contributed so
far (the drop in the players' combined stacks) and is never negative; once
the hand is over the pot has been paid back out in full, so the combined
stacks return to the starting total (the chip deltas sum to zero); and the
pot split is deterministic: every winner gets the floor share and the odd
remainder goes to `winners[0]`, which on a tied pair of players is the first
of the two in seat order thanks to the stable sort. -/
theorem c6_pot_conservation :
    (∀ (s t0 s1 : GameState) (deck : List Card),
      s.players.length = 2 → (∀ p ∈ s.players, 0 ≤ p.chips) → s.minBet = 10 →
      deck.length = 52 → startHand deck s = .ok t0 → Reach t0 s1 →
      s1.mainPot = (chipSum t0 + t0.mainPot) - chipSum s1 ∧
      0 ≤ s1.mainPot ∧
      (s1.roundOver = true → chipSum s1 = chipSum t0 + t0.mainPot)) ∧
    (∀ (s : GameState) (ws : List ℕ), ws ≠ [] → ws.Nodup →
      (∀ i ∈ ws, i < s.players.length) →
      (getPlayer (awardPot ws s) (ws.headD 0)).chips
        = (getPlayer s (ws.headD 0)).chips + s.mainPot.fdiv (ws.length : ℤ)
          + s.mainPot.fmod (ws.length : ℤ)) ∧
    (∀ (s : GameState) (i0 i1 : ℕ),
      (getPlayer s i0).handEvaluation.isSome → (getPlayer s i1).handEvaluation.isSome →
      evalValue (getPlayer s i0) = evalValue (getPlayer s i1) →
      pickWinners s (sortIdxByValue s [i0, i1]) = [i0, i1]) := by
  refine ⟨?_, ?_, ?_⟩
  · intro s t0 s1 deck h2 hc hmb hdl hok hr
    have hI := inv_reach (inv_start h2 hc hmb hdl hok) hr
    have hcons := hI.conserved
    refine ⟨by linarith, hI.potNonneg, fun hro => ?_⟩
    have hz := hI.potZeroAtEnd hro
    linarith
  · intro s ws hne hnd hval
    exact awardPot_head ws s hne hnd hval
  · intro s i0 i1 h0 h1 hv
    exact pickWinners_tie_pair s i0 i1 h0 h1 hv

/-- C6 witness: the freshly started hand (pot 15 = the two blinds, combined
stacks 1985 = 2000 - 15), the odd-chip layout on a tied two-way pot of 101
(head winner receives 50 + 1), and the seat-ordered tied winner list. -/
theorem c6_pot_conservation_witness :
    (startHandEx.mainPot = (chipSum startHandEx + startHandEx.mainPot) - chipSum startHandEx ∧
      0 ≤ startHandEx.mainPot ∧
      (startHandEx.roundOver = true → chipSum startHandEx = chipSum startHandEx + startHandEx.mainPot)) ∧
    (getPlayer (awardPot [0, 1] oddPotState) 0).chips
      = (getPlayer oddPotState 0).chips + (101 : ℤ).fdiv 2 + (101 : ℤ).fmod 2 ∧
    pickWinners oddPotState (sortIdxByValue oddPotState [0, 1]) = [0, 1] :=
  ⟨c6_pot_conservation.1 initState startHandEx startHandEx stdDeck (by decide)
      (by decide) rfl (by decide) (by rfl) Reach.refl,
   c6_pot_conservation.2.1 oddPotState [0, 1] (by decide) (by decide) (by decide),
   c6_pot_conservation.2.2 oddPotState 0 1 (by decide) (by decide) rfl⟩

/-- C8 counterexample: the complete hand `runC8` (call, then three checks)
runs to its automatic showdown with 40 of the 52 cards left, i.e. 12 cards
drawn — the flop, turn and river each burn one card, so a full two-player
hand draws 2*2 + 5 + 3 burns = 12 cards, not the claimed at most 11. -/
theorem c8_twelve_cards_drawn :
    (match runC8 with
     | .ok t => some (t.roundOver, t.stage, 52 - t.deck.length)
     | .error _ => none) = some (true, GameStage.showdown, 12) ∧ ¬(12 ≤ 11) :=
  ⟨by decide, by decide⟩

/-- C8 (amended): `drawCard` fails with `deckExhausted` exactly when the deck
is empty, and at every state reachable during a two-player hand started by
`startHand` on a 52-card deck at least 40 cards remain (at most
2*2 + 5 + 3 burns = 12 cards are drawn through showdown), so the
deck-exhausted error is unreachable in a complete hand. -/
theorem c8_deck_never_exhausted :
    (∀ s : GameState, drawCard s = .error .deckExhausted ↔ s.deck = []) ∧
    (∀ (s t0 s1 : GameState) (deck : List Card),
      s.players.length = 2 → (∀ p ∈ s.players, 0 ≤ p.chips) → s.minBet = 10 →
      deck.length = 52 → startHand deck s = .ok t0 → Reach t0 s1 →
      40 ≤ s1.deck.length ∧ s1.deck ≠ []) := by
  refine ⟨drawCard_error_iff, ?_⟩
  intro s t0 s1 deck h2 hc hmb hdl hok hr
  have hI := inv_reach (inv_start h2 hc hmb hdl hok) hr
  have hge := stageDeckBound_ge hI.deckBound
  refine ⟨hge, ?_⟩
  intro hnil
  rw [hnil] at hge
  simp at hge

/-- C8 witness: the empty-deck criterion instantiated at the constructor
state, and the just-started hand, whose deck holds 48 ≥ 40 cards. -/
theorem c8_deck_never_exhausted_witness :
    (drawCard initState = .error .deckExhausted ↔ initState.deck = []) ∧
    (40 ≤ startHandEx.deck.length ∧ startHandEx.deck ≠ []) :=
  ⟨c8_deck_never_exhausted.1 initState,
   c8_deck_never_exhausted.2 initState startHandEx startHandEx stdDeck (by decide) (by decide)
     rfl (by decide) (by rfl) Reach.refl⟩

theorem insertDesc_perm (c : Card) (l : List Card) : (insertDesc c l).Perm (c :: l) := by
  induction l with
  | nil => exact List.Perm.refl _
  | cons d ds ih =>
    unfold insertDesc
    by_cases hle : d.rank ≤ c.rank
    · rw [if_pos hle]
    · rw [if_neg hle]
      exact (List.Perm.cons d ih).trans (List.Perm.swap c d ds)

theorem sortDesc_perm (l : List Card) : (sortDesc l).Perm l := by
  induction l with
  | nil => exact List.Perm.refl _
  | cons c cs ih =>
    unfold sortDesc
    exact (insertDesc_perm c (sortDesc cs)).trans (List.Perm.cons c ih)

theorem mem_sortDesc {c : Card} {l : List Card} (h : c ∈ sortDesc l) : c ∈ l :=
  (sortDesc_perm l).subset h

theorem insertDescNat_perm (x : ℕ) (l : List ℕ) : (insertDescNat x l).Perm (x :: l) := by
  induction l with
  | nil => exact List.Perm.refl _
  | cons y ys ih =>
    unfold insertDescNat
    by_cases hle : y ≤ x
    · rw [if_pos hle]
    · rw [if_neg hle]
      exact (List.Perm.cons y ih).trans (List.Perm.swap x y ys)

theorem sortDescNat_perm (l : List ℕ) : (sortDescNat l).Perm l := by
  induction l with
  | nil => exact List.Perm.refl _
  | cons x xs ih =>
    unfold sortDescNat
    exact (insertDescNat_perm x (sortDescNat xs)).trans (List.Perm.cons x ih)

theorem mem_rankKeysAux : ∀ (seen : List ℕ) (l : List Card) (r : ℕ),
    r ∈ rankKeysAux seen l → ∃ c ∈ l, c.rank = r := by
  intro seen l
  induction l generalizing seen with
  | nil =>
    intro r hr
    unfold rankKeysAux at hr
    simp at hr
  | cons c cs ih =>
    intro r hr
    unfold rankKeysAux at hr
    by_cases hs : c.rank ∈ seen
    · rw [if_pos hs] at hr
      obtain ⟨d, hd, he⟩ := ih seen r hr
      exact ⟨d, List.mem_cons_of_mem c hd, he⟩
    · rw [if_neg hs] at hr
      rcases List.mem_cons.mp hr with h | h
      · exact ⟨c, List.mem_cons_self c cs, h.symm⟩
      · obtain ⟨d, hd, he⟩ := ih _ r h
        exact ⟨d, List.mem_cons_of_mem c hd, he⟩

theorem mem_rankKeys {r : ℕ} {cards : List Card} (h : r ∈ rankKeys cards) :
    ∃ c ∈ cards, c.rank = r := mem_rankKeysAux [] cards r h

theorem rankKeys_find_le {cards : List Card} (hv : ∀ c ∈ cards, c.rank ≤ 14)
    (p : ℕ → Bool) : ((rankKeys cards).find? p).getD 0 ≤ 14 := by
  cases hf : (rankKeys cards).find? p with
  | none => simp
  | some r =>
    obtain ⟨c, hc, he⟩ := mem_rankKeys (List.mem_of_find?_eq_some hf)
    simp only [Option.getD_some]
    rw [← he]
    exact hv c hc

theorem optRank_find_le {cards : List Card} (hv : ∀ c ∈ cards, c.rank ≤ 14)
    (p : Card → Bool) : optRankN (cards.find? p) ≤ 14 := by
  cases hf : cards.find? p with
  | none => simp [optRankN]
  | some c =>
    simp only [optRankN]
    exact hv c (List.mem_of_find?_eq_some hf)

theorem natGetD_le {l : List ℕ} (i : ℕ) (h : ∀ x ∈ l, x ≤ 14) : l.getD i 0 ≤ 14 := by
  by_cases hi : i < l.length
  · rw [List.getD_eq_getElem?_getD, List.getElem?_eq_getElem hi]
    exact h _ (List.getElem_mem hi)
  · push_neg at hi
    rw [getD_of_length_le l i 0 hi]
    omega

theorem headRank_le {cards : List Card} (hv : ∀ c ∈ cards, c.rank ≤ 14) :
    headRank cards ≤ 14 := by
  unfold headRank
  cases cards with
  | nil => simp
  | cons c cs =>
    simp only [List.map_cons, List.headD_cons]
    exact hv c (List.mem_cons_self c cs)

theorem getHighCard_le {cards : List Card} (hv : ∀ c ∈ cards, c.rank ≤ 14) :
    getHighCard cards ≤ 14 := by
  unfold getHighCard
  induction cards with
  | nil => simp
  | cons c cs ih =>
    simp only [List.map_cons, List.foldr_cons]
    have h1 : c.rank ≤ 14 := hv c (List.mem_cons_self c cs)
    have h2 := ih (fun d hd => hv d (List.mem_cons_of_mem c hd))
    exact max_le h1 h2

theorem getTwoPairValues_le {cards : List Card} (hv : ∀ c ∈ cards, c.rank ≤ 14)
    (i : ℕ) : (getTwoPairValues cards).getD i 0 ≤ 14 := by
  apply natGetD_le
  intro x hx
  unfold getTwoPairValues at hx
  have hx2 := (sortDescNat_perm _).subset hx
  obtain ⟨c, hc, he⟩ := mem_rankKeys (List.mem_of_mem_filter hx2)
  rw [← he]
  exact hv c hc

theorem kickRankN_le {cards : List Card} (hv : ∀ c ∈ cards, c.rank ≤ 14)
    (r i : ℕ) : kickRankN (kickersExcluding r cards) i ≤ 14 := by
  unfold kickRankN kickersExcluding
  apply natGetD_le
  intro x hx
  obtain ⟨c, hc, he⟩ := List.mem_map.mp hx
  rw [← he]
  exact hv c (List.mem_of_mem_filter (mem_sortDesc hc))

theorem getHandValue_band (cards : List Card) (hv : ∀ c ∈ cards, c.rank ≤ 14) :
    15 * (rankValue (handRankOf cards) : ℚ) ≤ getHandValue cards ∧
    getHandValue cards < 15 * (rankValue (handRankOf cards) : ℚ) + 15 := by
  have hhd : (headRank cards : ℚ) ≤ 14 := by exact_mod_cast headRank_le hv
  have hhd0 : (0 : ℚ) ≤ (headRank cards : ℚ) := Nat.cast_nonneg _
  have hhc : (getHighCard cards : ℚ) ≤ 14 := by exact_mod_cast getHighCard_le hv
  have hhc0 : (0 : ℚ) ≤ (getHighCard cards : ℚ) := Nat.cast_nonneg _
  have h4 : (getFourKindValue cards : ℚ) ≤ 14 := by
    exact_mod_cast (rankKeys_find_le hv _ : getFourKindValue cards ≤ 14)
  have h40 : (0 : ℚ) ≤ (getFourKindValue cards : ℚ) := Nat.cast_nonneg _
  have h3 : (getThreeKindValue cards : ℚ) ≤ 14 := by
    exact_mod_cast (rankKeys_find_le hv _ : getThreeKindValue cards ≤ 14)
  have h30 : (0 : ℚ) ≤ (getThreeKindValue cards : ℚ) := Nat.cast_nonneg _
  have h2p : (getPairValue cards : ℚ) ≤ 14 := by
    exact_mod_cast (rankKeys_find_le hv _ : getPairValue cards ≤ 14)
  have h2p0 : (0 : ℚ) ≤ (getPairValue cards : ℚ) := Nat.cast_nonneg _
  have hopt4 : (optRankN (cards.find? (fun c => c.rank != getFourKindValue cards)) : ℚ) ≤ 14 :=
    by exact_mod_cast optRank_find_le hv _
  have hopt40 : (0 : ℚ) ≤
      (optRankN (cards.find? (fun c => c.rank != getFourKindValue cards)) : ℚ) :=
    Nat.cast_nonneg _
  have hopt2 : (optRankN (cards.find? (fun c =>
      (c.rank != (getTwoPairValues cards).getD 0 0) &&
      (c.rank != (getTwoPairValues cards).getD 1 0))) : ℚ) ≤ 14 := by
    exact_mod_cast optRank_find_le hv _
  have hopt20 : (0 : ℚ) ≤ (optRankN (cards.find? (fun c =>
      (c.rank != (getTwoPairValues cards).getD 0 0) &&
      (c.rank != (getTwoPairValues cards).getD 1 0))) : ℚ) := Nat.cast_nonneg _
  have htp0 : ((getTwoPairValues cards).getD 0 0 : ℚ) ≤ 14 := by
    exact_mod_cast getTwoPairValues_le hv 0
  have htp00 : (0 : ℚ) ≤ ((getTwoPairValues cards).getD 0 0 : ℚ) := Nat.cast_nonneg _
  have htp1 : ((getTwoPairValues cards).getD 1 0 : ℚ) ≤ 14 := by
    exact_mod_cast getTwoPairValues_le hv 1
  have htp10 : (0 : ℚ) ≤ ((getTwoPairValues cards).getD 1 0 : ℚ) := Nat.cast_nonneg _
  have hk30 : (kickRankN (kickersExcluding (getThreeKindValue cards) cards) 0 : ℚ) ≤ 14 := by
    exact_mod_cast kickRankN_le hv _ 0
  have hk300 : (0 : ℚ) ≤
      (kickRankN (kickersExcluding (getThreeKindValue cards) cards) 0 : ℚ) := Nat.cast_nonneg _
  have hk31 : (kickRankN (kickersExcluding (getThreeKindValue cards) cards) 1 : ℚ) ≤ 14 := by
    exact_mod_cast kickRankN_le hv _ 1
  have hk310 : (0 : ℚ) ≤
      (kickRankN (kickersExcluding (getThreeKindValue cards) cards) 1 : ℚ) := Nat.cast_nonneg _
  have hk20 : (kickRankN (kickersExcluding (getPairValue cards) cards) 0 : ℚ) ≤ 14 := by
    exact_mod_cast kickRankN_le hv _ 0
  have hk200 : (0 : ℚ) ≤
      (kickRankN (kickersExcluding (getPairValue cards) cards) 0 : ℚ) := Nat.cast_nonneg _
  have hk21 : (kickRankN (kickersExcluding (getPairValue cards) cards) 1 : ℚ) ≤ 14 := by
    exact_mod_cast kickRankN_le hv _ 1
  have hk210 : (0 : ℚ) ≤
      (kickRankN (kickersExcluding (getPairValue cards) cards) 1 : ℚ) := Nat.cast_nonneg _
  have hk22 : (kickRankN (kickersExcluding (getPairValue cards) cards) 2 : ℚ) ≤ 14 := by
    exact_mod_cast kickRankN_le hv _ 2
  have hk220 : (0 : ℚ) ≤
      (kickRankN (kickersExcluding (getPairValue cards) cards) 2 : ℚ) := Nat.cast_nonneg _
  rcases evalBranches cards with ⟨hr, hq, -⟩ | ⟨hr, hq, -⟩ | ⟨hr, hq, -⟩ | ⟨hr, hq, -⟩ |
    ⟨hr, hq, -⟩ | ⟨hr, hq, -⟩ | ⟨hr, hq, -⟩ | ⟨hr, hq, -⟩ | ⟨hr, hq, -⟩ | ⟨hr, hq, -⟩ <;>
    rw [hr, hq] <;> simp only [rankValue] <;> push_cast <;>
    exact ⟨by linarith, by linarith⟩

theorem getHandValue_nonneg (cards : List Card) : 0 ≤ getHandValue cards := by
  rcases evalBranches cards with ⟨-, hq, -⟩ | ⟨-, hq, -⟩ | ⟨-, hq, -⟩ | ⟨-, hq, -⟩ |
    ⟨-, hq, -⟩ | ⟨-, hq, -⟩ | ⟨-, hq, -⟩ | ⟨-, hq, -⟩ | ⟨-, hq, -⟩ | ⟨-, hq, -⟩ <;>
    rw [hq] <;> positivity

theorem rankValue_le_of_value_le {a b : List Card}
    (ha : ∀ c ∈ a, c.rank ≤ 14) (hb : ∀ c ∈ b, c.rank ≤ 14)
    (h : getHandValue a ≤ getHandValue b) :
    rankValue (handRankOf a) ≤ rankValue (handRankOf b) := by
  by_contra hlt
  push_neg at hlt
  have h1 := (getHandValue_band a ha).1
  have h2 := (getHandValue_band b hb).2
  have hcast : (rankValue (handRankOf b) : ℚ) + 1 ≤ (rankValue (handRankOf a) : ℚ) := by
    exact_mod_cast hlt
  linarith

theorem mem_getCombinations : ∀ (l : List Card) (k : ℕ) (S : List Card),
    S ∈ getCombinations l k ↔ S.Sublist l ∧ S.length = k := by
  intro l
  induction l with
  | nil =>
    intro k S
    cases k with
    | zero =>
      unfold getCombinations
      simp only [List.mem_singleton]
      constructor
      · intro h
        subst h
        exact ⟨List.nil_sublist _, rfl⟩
      · intro ⟨h1, h2⟩
        exact List.eq_nil_of_length_eq_zero h2
    | succ k =>
      unfold getCombinations
      simp only [List.not_mem_nil, false_iff, not_and]
      intro hsub hlen
      rw [List.sublist_nil.mp hsub] at hlen
      simp at hlen
  | cons x xs ih =>
    intro k S
    cases k with
    | zero =>
      unfold getCombinations
      simp only [List.mem_singleton]
      constructor
      · intro h
        subst h
        exact ⟨List.nil_sublist _, rfl⟩
      · intro ⟨h1, h2⟩
        exact List.eq_nil_of_length_eq_zero h2
    | succ k =>
      unfold getCombinations
      rw [List.mem_append, List.mem_map]
      constructor
      · intro h
        rcases h with ⟨c, hc, he⟩ | h
        · obtain ⟨hcs, hcl⟩ := (ih k c).mp hc
          subst he
          exact ⟨List.cons_sublist_cons.mpr hcs, by simp [hcl]⟩
        · obtain ⟨hs, hl⟩ := (ih (k + 1) S).mp h
          exact ⟨hs.trans (List.sublist_cons_self x xs), hl⟩
      · intro ⟨hsub, hlen⟩
        rcases List.sublist_cons_iff.mp hsub with h | ⟨r, hr, hrs⟩
        · exact Or.inr ((ih (k + 1) S).mpr ⟨h, hlen⟩)
        · subst hr
          refine Or.inl ⟨r, (ih k r).mpr ⟨hrs, ?_⟩, rfl⟩
          simpa using hlen

theorem foldl_bestStep_spec : ∀ (l : List (List Card)) (acc : ℚ × List Card),
    (l.foldl bestStep acc = acc ∨
      ∃ c ∈ l, l.foldl bestStep acc = (getHandValue (sortDesc c), sortDesc c)) ∧
    acc.1 ≤ (l.foldl bestStep acc).1 ∧
    (∀ c ∈ l, getHandValue (sortDesc c) ≤ (l.foldl bestStep acc).1) := by
  intro l
  induction l with
  | nil =>
    intro acc
    refine ⟨Or.inl rfl, le_refl _, ?_⟩
    intro c hc
    simp at hc
  | cons c cs ih =>
    intro acc
    rw [List.foldl_cons]
    obtain ⟨ha, hb, hc⟩ := ih (bestStep acc c)
    by_cases hlt : acc.1 < getHandValue (sortDesc c)
    · have hstep : bestStep acc c = (getHandValue (sortDesc c), sortDesc c) := by
        unfold bestStep
        rw [if_pos hlt]
      refine ⟨?_, ?_, ?_⟩
      · rcases ha with h | ⟨d, hd, he⟩
        · rw [h, hstep]
          exact Or.inr ⟨c, List.mem_cons_self c cs, rfl⟩
        · exact Or.inr ⟨d, List.mem_cons_of_mem c hd, he⟩
      · refine le_trans ?_ hb
        rw [hstep]
        exact le_of_lt hlt
      · intro d hd
        rcases List.mem_cons.mp hd with h | h
        · subst h
          refine le_trans ?_ hb
          rw [hstep]
        · exact hc d h
    · have hstep : bestStep acc c = acc := by
        unfold bestStep
        rw [if_neg hlt]
      rw [hstep] at ha hb hc
      rw [hstep]
      refine ⟨?_, hb, ?_⟩
      · rcases ha with h | ⟨d, hd, he⟩
        · exact Or.inl h
        · exact Or.inr ⟨d, List.mem_cons_of_mem c hd, he⟩
      · intro d hd
        rcases List.mem_cons.mp hd with h | h
        · subst h
          push_neg at hlt
          exact le_trans hlt hb
        · exact hc d h

theorem getBestFive_spec (cards : List Card) (h7 : cards.length = 7) :
    ∃ c, c.Sublist cards ∧ c.length = 5 ∧
      getBestFiveCardHand cards = sortDesc c ∧
      (∀ S, S.Sublist cards → S.length = 5 →
        getHandValue (sortDesc S) ≤ getHandValue (sortDesc c)) := by
  have hne5 : ¬ cards.length = 5 := by omega
  obtain ⟨ha, hb, hc⟩ := foldl_bestStep_spec (getCombinations cards 5) ((-1 : ℚ), ([] : List Card))
  have htake : cards.take 5 ∈ getCombinations cards 5 :=
    (mem_getCombinations cards 5 _).mpr ⟨List.take_sublist 5 cards, by simp [h7]⟩
  rcases ha with h | ⟨c, hcm, he⟩
  · exfalso
    have h1 := hc _ htake
    rw [h] at h1
    have h2 := getHandValue_nonneg (sortDesc (cards.take 5))
    simp at h1
    linarith
  · obtain ⟨hcs, hcl⟩ := (mem_getCombinations cards 5 c).mp hcm
    refine ⟨c, hcs, hcl, ?_, ?_⟩
    · unfold getBestFiveCardHand
      rw [if_neg hne5, he]
    · intro S hS hS5
      have hmem : S ∈ getCombinations cards 5 := (mem_getCombinations cards 5 S).mpr ⟨hS, hS5⟩
      have := hc S hmem
      rw [he] at this
      exact this

/-- C4: on any 7-card input (with legal ranks), `evaluateHand` succeeds and
returns an evaluation whose best five cards are a 5-element subset of the
input; that subset's comparison value (the `getHandValue` score by which the
scan ranks the candidate five-card hands) is at least that of every other
5-card subset, and consequently the stored category `value` of the returned
evaluation is at least the `value` `evaluateHand` assigns to any other
5-card subset. -/
theorem c4_best_five_optimal (cards : List Card) (h7 : cards.length = 7)
    (hv : ∀ c ∈ cards, c.rank ≤ 14) :
    ∃ ev, evaluateHand cards = .ok ev ∧
      ev.cards.Subperm cards ∧ ev.cards.length = 5 ∧
      ∀ S, S.Sublist cards → S.length = 5 →
        getHandValue (sortDesc S) ≤ getHandValue ev.cards ∧
        ∀ evS, evaluateHand S = .ok evS → evS.value ≤ ev.value := by
  obtain ⟨c, hcs, hcl, hbest, hmax⟩ := getBestFive_spec cards h7
  have hnot : ¬ cards.length < 5 := by omega
  refine ⟨_, by unfold evaluateHand; rw [if_neg hnot], ?_, ?_, ?_⟩
  · show (getBestFiveCardHand cards).Subperm cards
    rw [hbest]
    exact ⟨c, (sortDesc_perm c).symm, hcs⟩
  · show (getBestFiveCardHand cards).length = 5
    rw [hbest, (sortDesc_perm c).length_eq, hcl]
  · intro S hS hS5
    constructor
    · show getHandValue (sortDesc S) ≤ getHandValue (getBestFiveCardHand cards)
      rw [hbest]
      exact hmax S hS hS5
    · intro evS hevS
      have h5 : ¬ S.length < 5 := by omega
      unfold evaluateHand at hevS
      rw [if_neg h5] at hevS
      simp only [Except.ok.injEq] at hevS
      subst hevS
      show rankValue (handRankOf (getBestFiveCardHand S))
        ≤ rankValue (handRankOf (getBestFiveCardHand cards))
      have hSbf : getBestFiveCardHand S = sortDesc S := by
        unfold getBestFiveCardHand
        rw [if_pos hS5]
      rw [hSbf, hbest]
      apply rankValue_le_of_value_le
      · intro x hx
        exact hv x (hS.subset (mem_sortDesc hx))
      · intro x hx
        exact hv x (hcs.subset (mem_sortDesc hx))
      · exact hmax S hS hS5

/-- C4 witness: the seven-card wheel hand, whose best five is a legitimate
5-card subset maximizing the comparison value over all 21 subsets. -/
theorem c4_best_five_optimal_witness :
    wheelSeven.length = 7 ∧
    ∃ ev, evaluateHand wheelSeven = .ok ev ∧
      ev.cards.Subperm wheelSeven ∧ ev.cards.length = 5 ∧
      ∀ S, S.Sublist wheelSeven → S.length = 5 →
        getHandValue (sortDesc S) ≤ getHandValue ev.cards ∧
        ∀ evS, evaluateHand S = .ok evS → evS.value ≤ ev.value :=
  ⟨by decide, c4_best_five_optimal wheelSeven (by decide)
    (@of_decide_eq_true _ (List.decidableBAll _ wheelSeven) rfl)⟩
